import Mathlib

/-!
Verification of the Product Application Matrix processing pipeline
(matrix parser, entity extractor, product matcher, relationship builder,
processor orchestration).

Strings are modelled as lists of character code points (`Str := List Nat`),
which is faithful to the ASCII fragment the pipeline manipulates.
-/

set_option maxRecDepth 100000

namespace Agar

/-- A string, modelled as the list of its characters' code points (`Nat`). -/
abbrev Str := List Nat

/-- Helper turning a Lean string literal into our code-point representation. -/
def str (s : String) : Str := s.data.map Char.toNat

/-- Python regex `\s` / `str.strip` whitespace class (ASCII fragment):
space, tab, newline, vertical tab, form feed, carriage return. -/
def isSpc (c : Nat) : Bool := c == 32 || c == 9 || c == 10 || c == 11 || c == 12 || c == 13

/-- ASCII upper-case letter test. -/
def isUpperC (c : Nat) : Bool := 65 ≤ c && c ≤ 90

/-- ASCII lower-case letter test. -/
def isLowerC (c : Nat) : Bool := 97 ≤ c && c ≤ 122

/-- ASCII letter (Python "cased character", ASCII fragment). -/
def isAlphaC (c : Nat) : Bool := isUpperC c || isLowerC c

/-- `str.lower` on one character (ASCII fragment). -/
def lowerC (c : Nat) : Nat := if isUpperC c then c + 32 else c

/-- `str.upper` on one character (ASCII fragment). -/
def upperC (c : Nat) : Nat := if isLowerC c then c - 32 else c

/-- `str.lower` (ASCII fragment). -/
def lowerS (s : Str) : Str := s.map lowerC

/-- Remove trailing whitespace (the right half of `str.strip`). -/
def dropTrail : Str → Str
  | [] => []
  | c :: r =>
    let t := dropTrail r
    if isSpc c && t.isEmpty then [] else c :: t

/-- Python `str.strip`: drop leading and trailing whitespace. -/
def stripS (s : Str) : Str := dropTrail (s.dropWhile isSpc)

/-- Helper for `collapseS`: the flag records whether we are inside a
whitespace run whose single replacement space was already emitted. -/
def collapseAux : Bool → Str → Str
  | _, [] => []
  | inRun, c :: r =>
    if isSpc c then
      if inRun then collapseAux true r else 32 :: collapseAux true r
    else c :: collapseAux false r

/-- Python `re.sub(r"\s+", " ", s)`: replace each whitespace run by a single space. -/
def collapseS (s : Str) : Str := collapseAux false s

/-- Python `str.split()` (no separator): split on whitespace runs, dropping
empty pieces. -/
def splitS : Str → List Str
  | [] => []
  | c :: r =>
    let ws := splitS r
    if isSpc c then ws
    else
      match r with
      | [] => [[c]]
      | d :: _ =>
        if isSpc d then [c] :: ws
        else
          match ws with
          | [] => [[c]]
          | w :: ws2 => (c :: w) :: ws2

/-- Python `" ".join(ws)`. -/
def joinS : List Str → Str
  | [] => []
  | [w] => w
  | w :: ws => w ++ 32 :: joinS ws

/-- Python `str.isupper` (ASCII fragment): at least one cased character and
no cased character is lower-case. -/
def pyIsUpper (w : Str) : Bool :=
  w.any isAlphaC && w.all (fun c => !isAlphaC c || isUpperC c)

/-- Helper for `pyTitle`: the flag records whether the previous character
was cased. -/
def titleAux : Bool → Str → Str
  | _, [] => []
  | prev, c :: r =>
    if isAlphaC c then
      (if prev then lowerC c else upperC c) :: titleAux true r
    else c :: titleAux false r

/-- Python `str.title` (ASCII fragment): upper-case each cased character that
follows a non-cased one, lower-case the other cased characters. -/
def pyTitle (w : Str) : Str := titleAux false w

/-- One word of `EntityExtractor.normalize_name` display casing: words that
are all upper-case and at most 4 characters long are preserved (acronyms),
all other words are title-cased. -/
def titleWord (w : Str) : Str :=
  if pyIsUpper w && decide (w.length ≤ 4) then w else pyTitle w

/-- `EntityExtractor.DEFAULT_SYNONYMS`: canonical name to list of variations. -/
def defaultSynonyms : List (Str × List Str) :=
  [ (str "timber", [str "wood", str "wooden", str "hardwood", str "softwood",
      str "wooden floors"])
  , (str "vinyl", [str "vinyl flooring", str "vinyl floors", str "vinyl tiles"])
  , (str "ceramic", [str "ceramic tiles", str "ceramics"])
  , (str "concrete", [str "cement", str "cementitious", str "concrete floors"])
  , (str "terrazzo", [str "sealed terrazzo"])
  , (str "marble", [str "sealed marble", str "marble floors"])
  , (str "porcelain", [str "porcelain tiles", str "non-porous porcelain tiles"])
  , (str "linoleum", [str "lino"])
  , (str "hospitals", [str "hospital", str "medical facilities",
      str "healthcare facilities"])
  , (str "kitchens", [str "kitchen", str "commercial kitchens"])
  , (str "food processing", [str "food processing areas",
      str "food processing equipment", str "food processing surfaces",
      str "food-processing equipment"])
  , (str "bathrooms", [str "bathroom", str "washrooms", str "restrooms"])
  , (str "schools", [str "school", str "educational facilities"]) ]

/-- `EntityExtractor._normalize_for_lookup` with the default
`case_sensitive = False`: lower-case, then strip. -/
def normLook (name : Str) : Str := stripS (lowerS name)

/-- Python `dict` assignment on an insertion-ordered association list:
overwrite in place if the key exists, else append. -/
def dictInsert {α : Type} (d : List (Str × α)) (k : Str) (v : α) : List (Str × α) :=
  if d.any (fun p => p.1 == k) then
    d.map (fun p => if p.1 == k then (k, v) else p)
  else d ++ [(k, v)]

/-- Python `dict` lookup on the association-list representation. -/
def dictFind {α : Type} (d : List (Str × α)) (k : Str) : Option α :=
  (d.find? (fun p => p.1 == k)).map Prod.snd

/-- `EntityExtractor._build_synonym_lookup`: reverse lookup from normalized
variation to canonical name, built over the default synonym table. -/
def synonymLookup : List (Str × Str) :=
  defaultSynonyms.foldl
    (fun d p =>
      p.2.foldl (fun d2 v => dictInsert d2 (normLook v) p.1)
        (dictInsert d (normLook p.1) p.1))
    []

/-- Display casing step of `EntityExtractor.normalize_name`: title-case each
whitespace-separated word, preserving short all-caps words. -/
def displayTitle (s : Str) : Str := joinS ((splitS s).map titleWord)

/-- `EntityExtractor.normalize_name` with the default configuration
(`case_sensitive = False`, default synonyms): strip, collapse whitespace,
resolve synonyms via the reverse lookup, then title-case each word keeping
short all-caps words. -/
def normalizeName (name : Str) : Str :=
  if name.isEmpty then []
  else
    match dictFind synonymLookup (normLook (collapseS (stripS name))) with
    | some c => displayTitle c
    | none => displayTitle (collapseS (stripS name))

/-- `EntityExtractor.get_normalized_key`: lower-case, trimmed version of the
normalized name. -/
def getNormalizedKey (name : Str) : Str := stripS (lowerS (normalizeName name))

/-! ### Character-level facts -/

theorem isUpperC_iff (c : Nat) : isUpperC c = true ↔ 65 ≤ c ∧ c ≤ 90 := by
  simp [isUpperC]

theorem isLowerC_iff (c : Nat) : isLowerC c = true ↔ 97 ≤ c ∧ c ≤ 122 := by
  simp [isLowerC]

theorem isSpc_iff (c : Nat) :
    isSpc c = true ↔ c = 32 ∨ c = 9 ∨ c = 10 ∨ c = 11 ∨ c = 12 ∨ c = 13 := by
  simp only [isSpc, Bool.or_eq_true, beq_iff_eq]
  omega

theorem beq_of_iff {a b : Bool} (h : a = true ↔ b = true) : a = b := by
  cases a <;> cases b <;> simp_all

theorem isAlphaC_iff (c : Nat) :
    isAlphaC c = true ↔ (65 ≤ c ∧ c ≤ 90) ∨ (97 ≤ c ∧ c ≤ 122) := by
  simp [isAlphaC, isUpperC, isLowerC]

theorem lowerC_eq (c : Nat) : lowerC c = if 65 ≤ c ∧ c ≤ 90 then c + 32 else c := by
  unfold lowerC
  by_cases h : 65 ≤ c ∧ c ≤ 90
  · rw [if_pos ((isUpperC_iff c).mpr h), if_pos h]
  · rw [if_neg (fun hb => h ((isUpperC_iff c).mp hb)), if_neg h]

theorem upperC_eq (c : Nat) : upperC c = if 97 ≤ c ∧ c ≤ 122 then c - 32 else c := by
  unfold upperC
  by_cases h : 97 ≤ c ∧ c ≤ 122
  · rw [if_pos ((isLowerC_iff c).mpr h), if_pos h]
  · rw [if_neg (fun hb => h ((isLowerC_iff c).mp hb)), if_neg h]

theorem isSpc_lowerC (c : Nat) : isSpc (lowerC c) = isSpc c := by
  apply beq_of_iff
  rw [isSpc_iff, isSpc_iff, lowerC_eq]
  split <;> omega

theorem isSpc_upperC (c : Nat) : isSpc (upperC c) = isSpc c := by
  apply beq_of_iff
  rw [isSpc_iff, isSpc_iff, upperC_eq]
  split <;> omega

theorem isAlphaC_lowerC (c : Nat) : isAlphaC (lowerC c) = isAlphaC c := by
  apply beq_of_iff
  rw [isAlphaC_iff, isAlphaC_iff, lowerC_eq]
  split <;> omega

theorem isAlphaC_upperC (c : Nat) : isAlphaC (upperC c) = isAlphaC c := by
  apply beq_of_iff
  rw [isAlphaC_iff, isAlphaC_iff, upperC_eq]
  split <;> omega

theorem lowerC_lowerC (c : Nat) : lowerC (lowerC c) = lowerC c := by
  by_cases h : 65 ≤ c ∧ c ≤ 90
  · rw [lowerC_eq c, if_pos h, lowerC_eq, if_neg (by omega)]
  · rw [lowerC_eq c, if_neg h, lowerC_eq, if_neg h]

theorem lowerC_upperC (c : Nat) : lowerC (upperC c) = lowerC c := by
  by_cases h : 97 ≤ c ∧ c ≤ 122
  · rw [upperC_eq, if_pos h, lowerC_eq, if_pos (by omega), lowerC_eq,
      if_neg (by omega)]
    omega
  · rw [upperC_eq, if_neg h]

theorem upperC_upperC (c : Nat) : upperC (upperC c) = upperC c := by
  by_cases h : 97 ≤ c ∧ c ≤ 122
  · rw [upperC_eq c, if_pos h, upperC_eq, if_neg (by omega)]
  · rw [upperC_eq c, if_neg h, upperC_eq, if_neg h]

/-! ### Word-level facts about splitting, joining, stripping and collapsing -/

/-- A word contains no whitespace character. -/
def NoSpace (w : Str) : Prop := ∀ c ∈ w, isSpc c = false

/-- Every word is nonempty and whitespace-free. -/
def GoodWords (ws : List Str) : Prop := ∀ w ∈ ws, w ≠ [] ∧ NoSpace w

theorem noSpace_nil : NoSpace [] := by intro c hc; cases hc

theorem noSpace_cons {c : Nat} {w : Str} :
    NoSpace (c :: w) ↔ isSpc c = false ∧ NoSpace w := by
  constructor
  · intro h
    exact ⟨h c (List.mem_cons_self c w), fun d hd => h d (List.mem_cons_of_mem c hd)⟩
  · intro h d hd
    rcases List.mem_cons.mp hd with h1 | h1
    · exact h1 ▸ h.1
    · exact h.2 d h1

theorem goodWords_nil : GoodWords [] := by intro w hw; cases hw

theorem goodWords_cons {w : Str} {ws : List Str} :
    GoodWords (w :: ws) ↔ (w ≠ [] ∧ NoSpace w) ∧ GoodWords ws := by
  constructor
  · intro h
    exact ⟨h w (List.mem_cons_self w ws), fun v hv => h v (List.mem_cons_of_mem w hv)⟩
  · intro h v hv
    rcases List.mem_cons.mp hv with h1 | h1
    · exact h1 ▸ h.1
    · exact h.2 v h1

theorem splitS_nil : splitS [] = [] := rfl

theorem splitS_cons_spc {c : Nat} (h : isSpc c = true) (r : Str) :
    splitS (c :: r) = splitS r := by
  rw [splitS.eq_def]
  simp [h]

theorem splitS_single {c : Nat} (h : isSpc c = false) : splitS [c] = [[c]] := by
  rw [splitS.eq_def]
  simp [h]

theorem splitS_cons2_spc {c d : Nat} (hc : isSpc c = false) (hd : isSpc d = true)
    (r : Str) : splitS (c :: d :: r) = [c] :: splitS (d :: r) := by
  rw [splitS.eq_def]
  simp [hc, hd]

theorem splitS_cons2_word {c d : Nat} (hc : isSpc c = false) (hd : isSpc d = false)
    {r : Str} {w : Str} {ws2 : List Str} (hws : splitS (d :: r) = w :: ws2) :
    splitS (c :: d :: r) = (c :: w) :: ws2 := by
  rw [splitS.eq_def]
  simp [hc, hd, hws]

theorem splitS_ne_nil {c : Nat} (h : isSpc c = false) (r : Str) :
    splitS (c :: r) ≠ [] := by
  cases r with
  | nil => rw [splitS_single h]; simp
  | cons d r2 =>
    by_cases hd : isSpc d = true
    · rw [splitS_cons2_spc h hd]; simp
    · replace hd : isSpc d = false := by simpa using hd
      cases hws : splitS (d :: r2) with
      | nil => exact absurd hws (splitS_ne_nil hd r2)
      | cons w ws2 => rw [splitS_cons2_word h hd hws]; simp

theorem goodWords_splitS (l : Str) : GoodWords (splitS l) := by
  induction l with
  | nil => exact goodWords_nil
  | cons c r ih =>
    by_cases hc : isSpc c = true
    · rw [splitS_cons_spc hc]; exact ih
    · replace hc : isSpc c = false := by simpa using hc
      cases r with
      | nil =>
        rw [splitS_single hc]
        rw [goodWords_cons]
        refine ⟨⟨by simp, ?_⟩, goodWords_nil⟩
        rw [noSpace_cons]
        exact ⟨hc, noSpace_nil⟩
      | cons d r2 =>
        by_cases hd : isSpc d = true
        · rw [splitS_cons2_spc hc hd, goodWords_cons]
          refine ⟨⟨by simp, ?_⟩, ih⟩
          rw [noSpace_cons]
          exact ⟨hc, noSpace_nil⟩
        · replace hd : isSpc d = false := by simpa using hd
          cases hws : splitS (d :: r2) with
          | nil => exact absurd hws (splitS_ne_nil hd r2)
          | cons w ws2 =>
            rw [splitS_cons2_word hc hd hws]
            have ih2 := hws ▸ ih
            rw [goodWords_cons] at ih2 ⊢
            refine ⟨⟨by simp, ?_⟩, ih2.2⟩
            rw [noSpace_cons]
            exact ⟨hc, ih2.1.2⟩

theorem dropTrail_nil : dropTrail [] = [] := rfl

theorem dropTrail_cons (c : Nat) (r : Str) :
    dropTrail (c :: r) =
      if isSpc c && (dropTrail r).isEmpty then [] else c :: dropTrail r := rfl

theorem dropTrail_eq_nil_iff {l : Str} :
    dropTrail l = [] ↔ ∀ c ∈ l, isSpc c = true := by
  induction l with
  | nil => simp [dropTrail]
  | cons c r ih =>
    rw [dropTrail_cons]
    by_cases hc : isSpc c = true
    · by_cases hr : dropTrail r = []
      · rw [if_pos (by simp [hc, hr])]
        simp only [List.mem_cons, true_iff]
        intro d hd
        rcases hd with h1 | h1
        · exact h1 ▸ hc
        · exact (ih.mp hr) d h1
      · rw [if_neg (by simp [List.isEmpty_iff]; intro _; exact hr)]
        simp only [List.cons_ne_nil, false_iff, not_forall]
        have h3 := (not_iff_not.mpr ih).mp hr
        push_neg at h3
        obtain ⟨d, hd, hds⟩ := h3
        exact ⟨d, List.mem_cons_of_mem c hd, by simpa using hds⟩
    · rw [if_neg (by simp [hc])]
      simp only [List.cons_ne_nil, false_iff, not_forall]
      exact ⟨c, List.mem_cons_self c r, by simpa using hc⟩

theorem dropTrail_append_noSpace :
    (w t : Str) → NoSpace w → dropTrail (w ++ t) = w ++ dropTrail t
  | [], t, _ => by simp
  | c :: w2, t, hw => by
    rw [List.cons_append, dropTrail_cons,
      if_neg (by simp [(noSpace_cons.mp hw).1]),
      dropTrail_append_noSpace w2 t (noSpace_cons.mp hw).2]
    rfl

theorem dropTrail_noSpace {w : Str} (hw : NoSpace w) : dropTrail w = w := by
  have h := dropTrail_append_noSpace w [] hw
  simpa [dropTrail_nil] using h

theorem head_dropWhile_false {p : Nat → Bool} :
    {l : Str} → {a : Nat} → {t : Str} → List.dropWhile p l = a :: t → p a = false
  | [], a, t, h => by simp at h
  | c :: r, a, t, h => by
    rw [List.dropWhile_cons] at h
    by_cases hc : p c = true
    · rw [if_pos hc] at h
      exact head_dropWhile_false h
    · rw [if_neg hc] at h
      cases h
      simpa using hc

theorem dropWhile_dropTrail :
    (l : Str) → List.dropWhile isSpc (dropTrail l) = dropTrail (List.dropWhile isSpc l)
  | [] => rfl
  | c :: r => by
    by_cases hc : isSpc c = true
    · by_cases hr : dropTrail r = []
      · rw [dropTrail_cons, if_pos (by simp [hc, hr])]
        have h2 : List.dropWhile isSpc r = [] :=
          List.dropWhile_eq_nil_iff.mpr (dropTrail_eq_nil_iff.mp hr)
        rw [List.dropWhile_cons, if_pos hc, h2, dropTrail_nil]
        rfl
      · rw [dropTrail_cons, if_neg (by simp [List.isEmpty_iff]; intro _; exact hr),
          List.dropWhile_cons, if_pos hc, List.dropWhile_cons, if_pos hc]
        exact dropWhile_dropTrail r
    · replace hc : isSpc c = false := by simpa using hc
      rw [dropTrail_cons, if_neg (by simp [hc]), List.dropWhile_cons, if_neg (by simp [hc]),
        List.dropWhile_cons, if_neg (by simp [hc]), dropTrail_cons, if_neg (by simp [hc])]

theorem splitS_eq_nil_iff : {l : Str} → (splitS l = [] ↔ ∀ c ∈ l, isSpc c = true)
  | [] => by simp [splitS_nil]
  | c :: r => by
    by_cases hc : isSpc c = true
    · rw [splitS_cons_spc hc]
      rw [splitS_eq_nil_iff (l := r)]
      constructor
      · intro h d hd
        rcases List.mem_cons.mp hd with h1 | h1
        · exact h1 ▸ hc
        · exact h d h1
      · intro h d hd
        exact h d (List.mem_cons_of_mem c hd)
    · replace hc : isSpc c = false := by simpa using hc
      constructor
      · intro h
        exact absurd h (splitS_ne_nil hc r)
      · intro h
        have := h c (List.mem_cons_self c r)
        rw [this] at hc
        cases hc

theorem joinS_nil : joinS [] = [] := rfl

theorem joinS_singleton (w : Str) : joinS [w] = w := rfl

theorem joinS_cons (w : Str) (ws : List Str) :
    joinS (w :: ws) = w ++ (if ws.isEmpty then [] else 32 :: joinS ws) := by
  cases ws with
  | nil => simp [joinS]
  | cons v ws2 => rfl

theorem joinS_ne_nil {w : Str} {ws : List Str} (hw : w ≠ []) :
    joinS (w :: ws) ≠ [] := by
  rw [joinS_cons]
  intro h
  rcases List.append_eq_nil.mp h with ⟨h1, _⟩
  exact hw h1

theorem dropWhile_isSpc_joinS {ws : List Str} (hws : GoodWords ws) :
    List.dropWhile isSpc (joinS ws) = joinS ws := by
  cases ws with
  | nil => rfl
  | cons w ws2 =>
    obtain ⟨hne, hnsp⟩ := (goodWords_cons.mp hws).1
    cases w with
    | nil => exact absurd rfl hne
    | cons c w2 =>
      rw [joinS_cons, List.cons_append, List.dropWhile_cons,
        if_neg (by simp [(noSpace_cons.mp hnsp).1])]

theorem dropTrail_joinS : {ws : List Str} → GoodWords ws → dropTrail (joinS ws) = joinS ws
  | [], _ => rfl
  | w :: ws2, hws => by
    obtain ⟨⟨hne, hnsp⟩, htail⟩ := goodWords_cons.mp hws
    cases ws2 with
    | nil => exact dropTrail_noSpace hnsp
    | cons v ws3 =>
      rw [joinS_cons, if_neg (by simp), dropTrail_append_noSpace _ _ hnsp,
        dropTrail_cons]
      have h1 : dropTrail (joinS (v :: ws3)) = joinS (v :: ws3) :=
        dropTrail_joinS htail
      have h2 : joinS (v :: ws3) ≠ [] :=
        joinS_ne_nil ((goodWords_cons.mp htail).1).1
      rw [h1, if_neg (by simp [List.isEmpty_iff]; intro _; exact h2)]

theorem stripS_joinS {ws : List Str} (hws : GoodWords ws) :
    stripS (joinS ws) = joinS ws := by
  unfold stripS
  rw [dropWhile_isSpc_joinS hws, dropTrail_joinS hws]

theorem collapseAux_nil (b : Bool) : collapseAux b [] = [] := rfl

theorem collapseAux_false_cons_nospc {c : Nat} (h : isSpc c = false) (r : Str) :
    collapseAux false (c :: r) = c :: collapseAux false r := by
  rw [collapseAux.eq_def]
  simp [h]

theorem collapseAux_noSpace_append :
    (w t : Str) → NoSpace w → collapseAux false (w ++ t) = w ++ collapseAux false t
  | [], t, _ => rfl
  | c :: w2, t, hw => by
    rw [List.cons_append, collapseAux_false_cons_nospc (noSpace_cons.mp hw).1,
      collapseAux_noSpace_append w2 t (noSpace_cons.mp hw).2]
    rfl

theorem collapseAux_true_cons_spc {c : Nat} (h : isSpc c = true) (r : Str) :
    collapseAux true (c :: r) = collapseAux true r := by
  rw [collapseAux.eq_def]
  simp [h]

theorem collapseAux_false_cons_spc {c : Nat} (h : isSpc c = true) (r : Str) :
    collapseAux false (c :: r) = 32 :: collapseAux true r := by
  rw [collapseAux.eq_def]
  simp [h]

theorem collapseAux_true_eq_false {l : Str}
    (h : ∀ c r, l = c :: r → isSpc c = false) :
    collapseAux true l = collapseAux false l := by
  cases l with
  | nil => rfl
  | cons c r =>
    have hc := h c r rfl
    rw [collapseAux.eq_def, collapseAux.eq_def]
    simp [hc]

theorem collapseAux_true_dropWhile :
    (l : Str) → collapseAux true l = collapseAux true (List.dropWhile isSpc l)
  | [] => rfl
  | c :: r => by
    by_cases hc : isSpc c = true
    · rw [collapseAux_true_cons_spc hc, List.dropWhile_cons, if_pos hc]
      exact collapseAux_true_dropWhile r
    · rw [List.dropWhile_cons, if_neg hc]

theorem collapseS_joinS : {ws : List Str} → GoodWords ws → collapseS (joinS ws) = joinS ws
  | [], _ => rfl
  | w :: ws2, hws => by
    obtain ⟨⟨hne, hnsp⟩, htail⟩ := goodWords_cons.mp hws
    cases ws2 with
    | nil =>
      show collapseAux false (joinS [w]) = joinS [w]
      rw [joinS_singleton]
      have h := collapseAux_noSpace_append w [] hnsp
      simpa [collapseAux_nil] using h
    | cons v ws3 =>
      show collapseAux false (joinS (w :: v :: ws3)) = joinS (w :: v :: ws3)
      rw [joinS_cons, if_neg (by simp), collapseAux_noSpace_append _ _ hnsp,
        collapseAux_false_cons_spc (by decide)]
      have hv := ((goodWords_cons.mp htail).1)
      have hhead : ∀ c r, joinS (v :: ws3) = c :: r → isSpc c = false := by
        intro c r hcr
        cases v with
        | nil => exact absurd rfl hv.1
        | cons a v2 =>
          rw [joinS_cons, List.cons_append] at hcr
          cases hcr
          exact (noSpace_cons.mp hv.2).1
      rw [collapseAux_true_eq_false hhead]
      have := collapseS_joinS htail
      unfold collapseS at this
      rw [this]

/-- The normalized core: stripping then collapsing a string is the same as
joining its whitespace-split words with single spaces. -/
theorem collapse_strip_eq_join_split :
    (l : Str) → collapseS (stripS l) = joinS (splitS l)
  | [] => rfl
  | c :: r => by
    by_cases hc : isSpc c = true
    · have h1 : stripS (c :: r) = stripS r := by
        unfold stripS
        rw [List.dropWhile_cons, if_pos hc]
      rw [h1, splitS_cons_spc hc]
      exact collapse_strip_eq_join_split r
    · replace hc : isSpc c = false := by simpa using hc
      have h1 : stripS (c :: r) = c :: dropTrail r := by
        unfold stripS
        rw [List.dropWhile_cons, if_neg (by simp [hc]), dropTrail_cons,
          if_neg (by simp [hc])]
      rw [h1]
      show collapseAux false (c :: dropTrail r) = joinS (splitS (c :: r))
      rw [collapseAux_false_cons_nospc hc]
      cases r with
      | nil => rw [splitS_single hc, dropTrail_nil, joinS_singleton, collapseAux_nil]
      | cons d r2 =>
        by_cases hd : isSpc d = true
        · rw [splitS_cons2_spc hc hd, joinS_cons]
          by_cases hnil : dropTrail (d :: r2) = []
          · have hall : ∀ e ∈ d :: r2, isSpc e = true := dropTrail_eq_nil_iff.mp hnil
            have hsplit : splitS (d :: r2) = [] := splitS_eq_nil_iff.mpr hall
            rw [hnil, hsplit, collapseAux_nil]
            simp
          · have hr2 : dropTrail r2 ≠ [] := by
              intro h0
              exact hnil (by rw [dropTrail_cons, if_pos (by simp [hd, h0])])
            have h2 : dropTrail (d :: r2) = d :: dropTrail r2 := by
              rw [dropTrail_cons, if_neg (by simp [List.isEmpty_iff]; intro _; exact hr2)]
            rw [h2, collapseAux_false_cons_spc hd]
            have h3 : collapseAux true (dropTrail r2) = collapseAux false (stripS r2) := by
              rw [collapseAux_true_dropWhile (dropTrail r2), dropWhile_dropTrail r2]
              apply collapseAux_true_eq_false
              intro e t het
              cases hdw : List.dropWhile isSpc r2 with
              | nil => rw [hdw, dropTrail_nil] at het; cases het
              | cons a t2 =>
                have ha : isSpc a = false := head_dropWhile_false hdw
                rw [hdw, dropTrail_cons] at het
                by_cases hcond : (isSpc a && (dropTrail t2).isEmpty) = true
                · rw [if_pos hcond] at het; cases het
                · rw [if_neg hcond] at het
                  cases het
                  exact ha
            have h4 : splitS (d :: r2) = splitS r2 := splitS_cons_spc hd r2
            have h5 : splitS r2 ≠ [] := by
              intro h0
              have hall := splitS_eq_nil_iff.mp h0
              exact hr2 (dropTrail_eq_nil_iff.mpr hall)
            rw [h3, h4, if_neg (by simp [List.isEmpty_iff]; exact h5)]
            have h6 := collapse_strip_eq_join_split r2
            unfold collapseS at h6
            rw [h6]
            rfl
        · replace hd : isSpc d = false := by simpa using hd
          cases hws : splitS (d :: r2) with
          | nil => exact absurd hws (splitS_ne_nil hd r2)
          | cons w ws2 =>
            rw [splitS_cons2_word hc hd hws]
            have h2 : dropTrail (d :: r2) = stripS (d :: r2) := by
              unfold stripS
              rw [List.dropWhile_cons, if_neg (by simp [hd])]
            rw [h2]
            have h3 := collapse_strip_eq_join_split (d :: r2)
            unfold collapseS at h3
            rw [h3, hws, joinS_cons, joinS_cons]
            rfl
termination_by l => l.length

/-- Splitting an already-joined list of good words recovers the words. -/
theorem splitS_noSpace_self :
    (w : Str) → NoSpace w → w ≠ [] → splitS w = [w]
  | [], _, hne => absurd rfl hne
  | [c], hw, _ => splitS_single (noSpace_cons.mp hw).1
  | c :: d :: r, hw, _ => by
    obtain ⟨hc, hw2⟩ := noSpace_cons.mp hw
    have hd := (noSpace_cons.mp hw2).1
    have h1 : splitS (d :: r) = [d :: r] :=
      splitS_noSpace_self (d :: r) hw2 (by simp)
    rw [splitS_cons2_word hc hd h1]

theorem splitS_append_spc :
    (w : Str) → (t : Str) → NoSpace w → w ≠ [] →
      splitS (w ++ 32 :: t) = w :: splitS t
  | [], _, _, hne => absurd rfl hne
  | [c], t, hw, _ => by
    rw [List.cons_append, List.nil_append,
      splitS_cons2_spc (noSpace_cons.mp hw).1 (by decide) t,
      splitS_cons_spc (by decide) t]
  | c :: d :: r, t, hw, _ => by
    obtain ⟨hc, hw2⟩ := noSpace_cons.mp hw
    have hd := (noSpace_cons.mp hw2).1
    have h1 : splitS ((d :: r) ++ 32 :: t) = (d :: r) :: splitS t :=
      splitS_append_spc (d :: r) t hw2 (by simp)
    rw [List.cons_append]
    rw [show (d :: r) ++ 32 :: t = d :: (r ++ 32 :: t) from rfl] at h1 ⊢
    rw [splitS_cons2_word hc hd h1]

theorem splitS_joinS : {ws : List Str} → GoodWords ws → splitS (joinS ws) = ws
  | [], _ => rfl
  | [w], hws => by
    obtain ⟨hne, hnsp⟩ := (goodWords_cons.mp hws).1
    rw [joinS_singleton]
    exact splitS_noSpace_self w hnsp hne
  | w :: v :: ws3, hws => by
    obtain ⟨⟨hne, hnsp⟩, htail⟩ := goodWords_cons.mp hws
    rw [joinS_cons, if_neg (by simp), splitS_append_spc w (joinS (v :: ws3)) hnsp hne,
      splitS_joinS htail]

/-! ### Title casing and lower casing -/

theorem titleAux_cons (b : Bool) (c : Nat) (r : Str) :
    titleAux b (c :: r) =
      if isAlphaC c then (if b then lowerC c else upperC c) :: titleAux true r
      else c :: titleAux false r := rfl

theorem length_titleAux : (b : Bool) → (w : Str) → (titleAux b w).length = w.length
  | _, [] => rfl
  | b, c :: r => by
    rw [titleAux_cons]
    by_cases h : isAlphaC c = true
    · rw [if_pos h, List.length_cons, List.length_cons, length_titleAux true r]
    · rw [if_neg (by simp [h]), List.length_cons, List.length_cons,
        length_titleAux false r]

theorem noSpace_titleAux : (b : Bool) → (w : Str) → NoSpace w → NoSpace (titleAux b w)
  | _, [], _ => noSpace_nil
  | b, c :: r, hw => by
    obtain ⟨hc, hr⟩ := noSpace_cons.mp hw
    rw [titleAux_cons]
    by_cases h : isAlphaC c = true
    · rw [if_pos h, noSpace_cons]
      refine ⟨?_, noSpace_titleAux true r hr⟩
      cases b with
      | true => rw [if_pos rfl, isSpc_lowerC]; exact hc
      | false => rw [if_neg (by simp), isSpc_upperC]; exact hc
    · rw [if_neg (by simp [h]), noSpace_cons]
      exact ⟨hc, noSpace_titleAux false r hr⟩

theorem lowerS_titleAux : (b : Bool) → (w : Str) → lowerS (titleAux b w) = lowerS w
  | _, [] => rfl
  | b, c :: r => by
    rw [titleAux_cons]
    by_cases h : isAlphaC c = true
    · rw [if_pos h]
      show lowerC (if b then lowerC c else upperC c) :: lowerS (titleAux true r) =
        lowerC c :: lowerS r
      rw [lowerS_titleAux true r]
      cases b with
      | true => rw [if_pos rfl, lowerC_lowerC]
      | false => rw [if_neg (by simp), lowerC_upperC]
    · rw [if_neg (by simp [h])]
      show lowerC c :: lowerS (titleAux false r) = lowerC c :: lowerS r
      rw [lowerS_titleAux false r]

theorem titleAux_idem : (b : Bool) → (w : Str) → titleAux b (titleAux b w) = titleAux b w
  | _, [] => rfl
  | b, c :: r => by
    rw [titleAux_cons]
    by_cases h : isAlphaC c = true
    · rw [if_pos h, titleAux_cons]
      have halpha : isAlphaC (if b then lowerC c else upperC c) = true := by
        cases b with
        | true => rw [if_pos rfl, isAlphaC_lowerC]; exact h
        | false => rw [if_neg (by simp), isAlphaC_upperC]; exact h
      rw [if_pos halpha, titleAux_idem true r]
      cases b with
      | true => simp [lowerC_lowerC]
      | false => simp [upperC_upperC]
    · rw [if_neg (by simp [h]), titleAux_cons, if_neg (by simp [h]), titleAux_idem false r]

theorem length_titleWord (w : Str) : (titleWord w).length = w.length := by
  unfold titleWord
  split
  · rfl
  · exact length_titleAux false w

theorem titleWord_ne_nil {w : Str} (hw : w ≠ []) : titleWord w ≠ [] := by
  intro h
  apply hw
  have h1 := length_titleWord w
  rw [h, List.length_nil] at h1
  exact List.length_eq_zero.mp h1.symm

theorem noSpace_titleWord {w : Str} (hw : NoSpace w) : NoSpace (titleWord w) := by
  unfold titleWord
  split
  · exact hw
  · exact noSpace_titleAux false w hw

theorem lowerS_titleWord (w : Str) : lowerS (titleWord w) = lowerS w := by
  unfold titleWord
  split
  · rfl
  · exact lowerS_titleAux false w

theorem titleWord_titleWord (w : Str) : titleWord (titleWord w) = titleWord w := by
  by_cases h : (pyIsUpper w && decide (w.length ≤ 4)) = true
  · have e : titleWord w = w := by rw [titleWord, if_pos h]
    rw [e]
    exact e
  · have e : titleWord w = pyTitle w := by rw [titleWord, if_neg h]
    rw [e]
    by_cases h2 : (pyIsUpper (pyTitle w) && decide ((pyTitle w).length ≤ 4)) = true
    · rw [titleWord, if_pos h2]
    · rw [titleWord, if_neg h2]
      exact titleAux_idem false w

theorem goodWords_map_titleWord {ws : List Str} (hws : GoodWords ws) :
    GoodWords (ws.map titleWord) := by
  intro w hw
  obtain ⟨v, hv, hvw⟩ := List.mem_map.mp hw
  obtain ⟨hne, hnsp⟩ := hws v hv
  exact hvw ▸ ⟨titleWord_ne_nil hne, noSpace_titleWord hnsp⟩

theorem lowerS_joinS : (ws : List Str) → lowerS (joinS ws) = joinS (ws.map lowerS)
  | [] => rfl
  | [w] => rfl
  | w :: v :: ws3 => by
    show lowerS (w ++ 32 :: joinS (v :: ws3)) =
      joinS (lowerS w :: (v :: ws3).map lowerS)
    rw [show joinS (lowerS w :: (v :: ws3).map lowerS) =
      lowerS w ++ 32 :: joinS ((v :: ws3).map lowerS) from rfl]
    unfold lowerS
    rw [List.map_append, List.map_cons]
    rw [show lowerC 32 = 32 from rfl]
    have h := lowerS_joinS (v :: ws3)
    unfold lowerS at h
    rw [h]

/-! ### C6: idempotence of normalize_name -/

theorem synonym_fixed :
    ∀ p ∈ synonymLookup, normalizeName (displayTitle p.2) = displayTitle p.2 := by
  decide

theorem dictFind_mem {α : Type} [DecidableEq α] {d : List (Str × α)} {k : Str} {v : α}
    (h : dictFind d k = some v) : (k, v) ∈ d := by
  unfold dictFind at h
  cases hf : d.find? (fun p => p.1 == k) with
  | none => rw [hf] at h; cases h
  | some p =>
    rw [hf] at h
    have hp : (p.1 == k) = true := (List.find?_eq_some.mp hf).1
    have hmem : p ∈ d := List.mem_of_find?_eq_some hf
    have hk : p.1 = k := by simpa using hp
    have hv : p.2 = v := by simpa using h
    have : p = (k, v) := by
      cases p
      simp at hk hv
      rw [hk, hv]
    exact this ▸ hmem

/-- C6: `normalize_name` is idempotent — normalizing an already-normalized
name (strip, collapse whitespace, synonym resolution, title casing with
short-acronym preservation) returns it unchanged. -/
theorem normalize_name_idempotent (x : Str) :
    normalizeName (normalizeName x) = normalizeName x := by
  by_cases hx : x.isEmpty = true
  · have h0 : normalizeName x = [] := by rw [normalizeName, if_pos hx]
    rw [h0]
    rfl
  · have h0 : normalizeName x =
        match dictFind synonymLookup (normLook (collapseS (stripS x))) with
        | some c => displayTitle c
        | none => displayTitle (collapseS (stripS x)) := by
      rw [normalizeName, if_neg hx]
    cases hfind : dictFind synonymLookup (normLook (collapseS (stripS x))) with
    | some c =>
      rw [h0, hfind]
      exact synonym_fixed _ (dictFind_mem hfind)
    | none =>
      rw [h0, hfind]
      show normalizeName (displayTitle (collapseS (stripS x))) =
        displayTitle (collapseS (stripS x))
      have hW4 : collapseS (stripS x) = joinS (splitS x) := collapse_strip_eq_join_split x
      have hgood : GoodWords (splitS x) := goodWords_splitS x
      have hy : displayTitle (collapseS (stripS x)) = joinS ((splitS x).map titleWord) := by
        unfold displayTitle
        rw [hW4, splitS_joinS hgood]
      rw [hy]
      have hgoodT : GoodWords ((splitS x).map titleWord) := goodWords_map_titleWord hgood
      by_cases hnil : splitS x = []
      · rw [hnil]
        rfl
      · obtain ⟨w, ws2, hwsE⟩ : ∃ w ws2, splitS x = w :: ws2 := by
          cases hc : splitS x with
          | nil => exact absurd hc hnil
          | cons a b => exact ⟨a, b, rfl⟩
        have hwmem : w ∈ splitS x := hwsE.symm ▸ List.mem_cons_self w ws2
        have hwne : titleWord w ≠ [] := titleWord_ne_nil (hgood w hwmem).1
        have hyne : joinS ((splitS x).map titleWord) ≠ [] := by
          rw [hwsE, List.map_cons]
          exact joinS_ne_nil hwne
        have hstripy : stripS (joinS ((splitS x).map titleWord)) =
            joinS ((splitS x).map titleWord) := stripS_joinS hgoodT
        have hcoly : collapseS (joinS ((splitS x).map titleWord)) =
            joinS ((splitS x).map titleWord) := collapseS_joinS hgoodT
        have hkey : normLook (joinS ((splitS x).map titleWord)) =
            normLook (collapseS (stripS x)) := by
          unfold normLook
          rw [lowerS_joinS, List.map_map,
            show lowerS ∘ titleWord = lowerS from funext lowerS_titleWord, hW4,
            lowerS_joinS]
        rw [normalizeName, if_neg (by simp [List.isEmpty_iff]; exact hyne),
          hstripy, hcoly, hkey, hfind]
        show displayTitle (joinS ((splitS x).map titleWord)) =
          joinS ((splitS x).map titleWord)
        unfold displayTitle
        rw [splitS_joinS hgoodT, List.map_map,
          show titleWord ∘ titleWord = titleWord from funext titleWord_titleWord]

/-! ### Data model: parsed matrix rows -/

/-- `MatrixRow`: one parsed product and its accumulated entity value lists. -/
structure MatrixRow where
  product_name : Str
  benefits : List Str := []
  surfaces : List Str := []
  incompatible_surfaces : List Str := []
  soilage_types : List Str := []
  incompatible_soilage : List Str := []
  locations : List Str := []
  deriving DecidableEq

/-! ### Product matcher -/

/-- A scraped product record, reduced to the fields `ProductMatcher` reads:
`product.get("product_name", "")` and `product.get("product_url")`. -/
structure Scraped where
  productName : Str
  productUrl : Option Str
  deriving DecidableEq

/-- `ProductMatch`: result of matching one matrix name to a scraped record. -/
structure ProductMatch where
  matrixName : Str
  scrapedName : Str
  scrapedUrl : Option Str
  scrapedData : Option Scraped
  confidence : ℚ
  matchType : Str
  deriving DecidableEq

/-- Lower-case alphanumeric or whitespace (the characters `ProductMatcher._normalize`
keeps after lower-casing). -/
def keepChar (c : Nat) : Nat :=
  if (97 ≤ c ∧ c ≤ 122) ∨ (48 ≤ c ∧ c ≤ 57) ∨ isSpc c = true then c else 32

/-- `ProductMatcher._normalize`: lower-case and strip, replace every character
that is not lower-case-alphanumeric or whitespace by a space, collapse
whitespace runs, strip. -/
def normM (name : Str) : Str :=
  if name.isEmpty then []
  else stripS (collapseS ((stripS (lowerS name)).map keepChar))

/-- The matcher: threshold plus the two lookup indices built at construction. -/
structure Matcher where
  threshold : ℚ
  nameLookup : List (Str × Scraped)
  normLookup : List (Str × Scraped)
  deriving DecidableEq

/-- `ProductMatcher.__init__` / `_build_lookup`: build the exact-name and
normalized-name indices, skipping records with a falsy name. -/
def buildMatcher (products : List Scraped) (threshold : ℚ) : Matcher :=
  { threshold := threshold
  , nameLookup :=
      products.foldl
        (fun d p => if p.productName.isEmpty then d else dictInsert d p.productName p) []
  , normLookup :=
      products.foldl
        (fun d p => if p.productName.isEmpty then d else dictInsert d (normM p.productName) p) [] }

/-- Character bigrams of a string, as a set. -/
def bigrams (s : Str) : Finset (Nat × Nat) := (s.zip s.tail).toFinset

/-- `ProductMatcher._similarity` (the dependency-free fallback): Jaccard
similarity over character bigrams, with the source's early returns. -/
def similarity (s1 s2 : Str) : ℚ :=
  if s1.isEmpty || s2.isEmpty then 0
  else if s1 = s2 then 1
  else
    if bigrams s1 = ∅ ∨ bigrams s2 = ∅ then 0
    else
      if 0 < (bigrams s1 ∪ bigrams s2).card then
        mkRat ((bigrams s1 ∩ bigrams s2).card : Int) ((bigrams s1 ∪ bigrams s2).card)
      else 0

/-- The fuzzy stage loop of `ProductMatcher.match`: track the best match and
best score over the normalized index, updating when
`score > best_score and score >= threshold`. -/
def fuzzyFold (θ : ℚ) (nm : Str) :
    List (Str × Scraped) → Option Scraped × ℚ → Option Scraped × ℚ
  | [], acc => acc
  | (k, p) :: rest, (best, bs) =>
    if bs < similarity nm k ∧ θ ≤ similarity nm k then
      fuzzyFold θ nm rest (some p, similarity nm k)
    else fuzzyFold θ nm rest (best, bs)

/-- The partial-containment stage of `ProductMatcher.match`: first candidate
where one normalized name contains the other and the length ratio is at
least one half. -/
def containFold (nm matrixName : Str) : List (Str × Scraped) → Option ProductMatch
  | [] => none
  | (k, p) :: rest =>
    if nm <:+: k ∨ k <:+: nm then
      if mkRat 1 2 ≤ mkRat (min nm.length k.length : Int) (max nm.length k.length) then
        some { matrixName := matrixName, scrapedName := p.productName
             , scrapedUrl := p.productUrl, scrapedData := some p
             , confidence := mkRat (min nm.length k.length : Int) (max nm.length k.length)
             , matchType := str "partial" }
      else containFold nm matrixName rest
    else containFold nm matrixName rest

/-- `ProductMatcher.match`: falsy guard, then the four strategies in order
(exact, exact-normalized, fuzzy, partial containment). The input is an
`Option Str` so that Python `None` and the empty string are both covered by
the falsy guard. -/
def matchF (m : Matcher) (inp : Option Str) : Option ProductMatch :=
  match inp with
  | none => none
  | some name =>
    if name.isEmpty then none
    else
      match dictFind m.nameLookup name with
      | some p =>
        some { matrixName := name, scrapedName := p.productName
             , scrapedUrl := p.productUrl, scrapedData := some p
             , confidence := 1, matchType := str "exact" }
      | none =>
        match dictFind m.normLookup (normM name) with
        | some p =>
          some { matrixName := name, scrapedName := p.productName
               , scrapedUrl := p.productUrl, scrapedData := some p
               , confidence := 1, matchType := str "exact_normalized" }
        | none =>
          match fuzzyFold m.threshold (normM name) m.normLookup (none, 0) with
          | (some p, bs) =>
            some { matrixName := name, scrapedName := p.productName
                 , scrapedUrl := p.productUrl, scrapedData := some p
                 , confidence := bs, matchType := str "fuzzy" }
          | (none, _) => containFold (normM name) name m.normLookup

/-- `MatchReport`: matched and unmatched partition plus the match rate. -/
structure MatchReport where
  matched : List ProductMatch
  unmatched : List Str
  matchRate : ℚ
  deriving DecidableEq

/-- One iteration of the `get_match_report` loop: append to matched or to
unmatched according to the match outcome. -/
def reportStep (m : Matcher) (acc : List ProductMatch × List Str) (row : MatrixRow) :
    List ProductMatch × List Str :=
  match matchF m (some row.product_name) with
  | some pm => (acc.1 ++ [pm], acc.2)
  | none => (acc.1, acc.2 ++ [row.product_name])

/-- `ProductMatcher.get_match_report`: match every row product name, partition
into matched and unmatched, and compute the guarded match rate. -/
def getMatchReport (m : Matcher) (rows : List MatrixRow) : MatchReport :=
  { matched := (rows.foldl (reportStep m) ([], [])).1
  , unmatched := (rows.foldl (reportStep m) ([], [])).2
  , matchRate :=
      if 0 < rows.length then
        mkRat ((rows.foldl (reportStep m) ([], [])).1.length : Int) rows.length
      else 0 }

/-! ### C9: match-rate computation -/

theorem reportFold_lengths (m : Matcher) :
    (rows : List MatrixRow) → (acc : List ProductMatch × List Str) →
      (rows.foldl (reportStep m) acc).1.length =
          acc.1.length +
            (rows.filter (fun r => (matchF m (some r.product_name)).isSome)).length
        ∧ (rows.foldl (reportStep m) acc).2.length =
          acc.2.length +
            (rows.filter (fun r => !(matchF m (some r.product_name)).isSome)).length
  | [], acc => by simp
  | row :: rest, acc => by
    rw [List.foldl_cons]
    have ih := reportFold_lengths m rest (reportStep m acc row)
    cases hm : matchF m (some row.product_name) with
    | some pm =>
      have hstep : reportStep m acc row = (acc.1 ++ [pm], acc.2) := by
        unfold reportStep
        rw [hm]
      rw [hstep] at ih
      rw [hstep]
      constructor
      · rw [ih.1, List.filter_cons]
        simp [hm]
        omega
      · rw [ih.2, List.filter_cons]
        simp [hm]
    | none =>
      have hstep : reportStep m acc row = (acc.1, acc.2 ++ [row.product_name]) := by
        unfold reportStep
        rw [hm]
      rw [hstep] at ih
      rw [hstep]
      constructor
      · rw [ih.1, List.filter_cons]
        simp [hm]
      · rw [ih.2, List.filter_cons]
        simp [hm]
        omega

/-- C9: `get_match_report` partitions the rows into matched and unmatched and
returns `match_rate = matched_count / total_rows`, with `match_rate = 0`
(and no division error) when the row list is empty. -/
theorem get_match_report_rate (m : Matcher) (rows : List MatrixRow) :
    (getMatchReport m rows).matched.length + (getMatchReport m rows).unmatched.length
        = rows.length
      ∧ (getMatchReport m rows).matchRate =
        (if rows.length = 0 then 0
         else mkRat ((getMatchReport m rows).matched.length : Int) rows.length) := by
  have h := reportFold_lengths m rows ([], [])
  constructor
  · show (rows.foldl (reportStep m) ([], [])).1.length +
        (rows.foldl (reportStep m) ([], [])).2.length = rows.length
    rw [h.1, h.2]
    simp only [List.length_nil, Nat.zero_add]
    have h2 : rows.length =
        (rows.filter (fun r => (matchF m (some r.product_name)).isSome)).length +
          (rows.filter (fun r => !(matchF m (some r.product_name)).isSome)).length :=
      List.length_eq_length_filter_add _
    omega
  · show (if 0 < rows.length then
        mkRat ((rows.foldl (reportStep m) ([], [])).1.length : Int) rows.length else 0) = _
    by_cases hz : rows.length = 0
    · rw [if_neg (by omega), if_pos hz]
    · rw [if_pos (by omega), if_neg hz]
      rfl

/-! ### C4: the fuzzy matching stage -/

/-- Similarity scores are in [0,1]. -/
theorem similarity_bounds (s1 s2 : Str) :
    0 ≤ similarity s1 s2 ∧ similarity s1 s2 ≤ 1 := by
  unfold similarity
  split
  · exact ⟨le_refl 0, by norm_num⟩
  · split
    · exact ⟨by norm_num, le_refl 1⟩
    · split
      · exact ⟨le_refl 0, by norm_num⟩
      · split
        next hcard =>
          rw [Rat.mkRat_eq_div]
          constructor
          · apply div_nonneg
            · exact_mod_cast Int.ofNat_nonneg _
            · exact_mod_cast Nat.zero_le _
          · rw [div_le_one (by exact_mod_cast hcard)]
            have hsub : bigrams s1 ∩ bigrams s2 ⊆ bigrams s1 ∪ bigrams s2 :=
              fun x hx => Finset.mem_union_left _ (Finset.mem_of_mem_inter_left hx)
            have h2 := Finset.card_le_card hsub
            exact_mod_cast h2
        · exact ⟨le_refl 0, by norm_num⟩

/-- Specification-side recursion describing the fuzzy loop of
`ProductMatcher.match`: the winning product and score, if any entry
qualifies starting from running best score `s0`. -/
def fuzzySpec (θ : ℚ) (nm : Str) : List (Str × Scraped) → ℚ → Option (Scraped × ℚ)
  | [], _ => none
  | (k, p) :: rest, s0 =>
    if s0 < similarity nm k ∧ θ ≤ similarity nm k then
      match fuzzySpec θ nm rest (similarity nm k) with
      | none => some (p, similarity nm k)
      | some r => some r
    else fuzzySpec θ nm rest s0

theorem fuzzySpec_cons (θ : ℚ) (nm k : Str) (p : Scraped)
    (rest : List (Str × Scraped)) (s0 : ℚ) :
    fuzzySpec θ nm ((k, p) :: rest) s0 =
      if s0 < similarity nm k ∧ θ ≤ similarity nm k then
        match fuzzySpec θ nm rest (similarity nm k) with
        | none => some (p, similarity nm k)
        | some r => some r
      else fuzzySpec θ nm rest s0 := rfl

theorem fuzzyFold_eq_spec (θ : ℚ) (nm : Str) :
    (l : List (Str × Scraped)) → (b0 : Option Scraped) → (s0 : ℚ) →
      fuzzyFold θ nm l (b0, s0) =
        match fuzzySpec θ nm l s0 with
        | none => (b0, s0)
        | some (p, s) => (some p, s)
  | [], b0, s0 => rfl
  | (k, p) :: rest, b0, s0 => by
    show (if s0 < similarity nm k ∧ θ ≤ similarity nm k then
        fuzzyFold θ nm rest (some p, similarity nm k)
      else fuzzyFold θ nm rest (b0, s0)) = _
    by_cases hcond : s0 < similarity nm k ∧ θ ≤ similarity nm k
    · rw [if_pos hcond, fuzzyFold_eq_spec θ nm rest (some p) (similarity nm k)]
      show _ = (match fuzzySpec θ nm ((k, p) :: rest) s0 with
        | none => (b0, s0)
        | some (q, s) => (some q, s))
      rw [show fuzzySpec θ nm ((k, p) :: rest) s0 =
          (match fuzzySpec θ nm rest (similarity nm k) with
           | none => some (p, similarity nm k)
           | some r => some r) by rw [fuzzySpec_cons, if_pos hcond]]
      cases fuzzySpec θ nm rest (similarity nm k) with
      | none => rfl
      | some r => cases r; rfl
    · rw [if_neg hcond, fuzzyFold_eq_spec θ nm rest b0 s0]
      rw [show fuzzySpec θ nm ((k, p) :: rest) s0 = fuzzySpec θ nm rest s0 by
        rw [fuzzySpec_cons, if_neg hcond]]

theorem fuzzySpec_none {θ : ℚ} {nm : Str} :
    {l : List (Str × Scraped)} → {s0 : ℚ} → fuzzySpec θ nm l s0 = none →
      ∀ e ∈ l, ¬(s0 < similarity nm e.1 ∧ θ ≤ similarity nm e.1)
  | [], _, _ => by intro e he; cases he
  | (k, p) :: rest, s0, h => by
    rw [fuzzySpec_cons] at h
    by_cases hcond : s0 < similarity nm k ∧ θ ≤ similarity nm k
    · rw [if_pos hcond] at h
      cases hrec : fuzzySpec θ nm rest (similarity nm k) with
      | none => rw [hrec] at h; cases h
      | some r => rw [hrec] at h; cases h
    · rw [if_neg hcond] at h
      intro e he
      rcases List.mem_cons.mp he with h1 | h1
      · exact h1 ▸ hcond
      · exact fuzzySpec_none h e h1

theorem fuzzySpec_some {θ : ℚ} {nm : Str} :
    {l : List (Str × Scraped)} → {s0 : ℚ} → {p : Scraped} → {s : ℚ} →
      fuzzySpec θ nm l s0 = some (p, s) →
      s0 < s ∧ θ ≤ s ∧ ∃ e ∈ l, similarity nm e.1 = s
  | [], _, _, _, h => by cases h
  | (k, q) :: rest, s0, p, s, h => by
    rw [fuzzySpec_cons] at h
    by_cases hcond : s0 < similarity nm k ∧ θ ≤ similarity nm k
    · rw [if_pos hcond] at h
      cases hrec : fuzzySpec θ nm rest (similarity nm k) with
      | none =>
        rw [hrec] at h
        cases h
        exact ⟨hcond.1, hcond.2, ⟨(k, q), List.mem_cons_self _ _, rfl⟩⟩
      | some r =>
        obtain ⟨p2, s2⟩ := r
        rw [hrec] at h
        have hps : p2 = p ∧ s2 = s := by simpa using h
        rw [hps.1, hps.2] at hrec
        obtain ⟨hlt, hth, e, he, hse⟩ := fuzzySpec_some hrec
        exact ⟨lt_trans hcond.1 hlt, hth, e, List.mem_cons_of_mem _ he, hse⟩
    · rw [if_neg hcond] at h
      obtain ⟨hlt, hth, e, he, hse⟩ := fuzzySpec_some h
      exact ⟨hlt, hth, e, List.mem_cons_of_mem _ he, hse⟩

theorem fuzzySpec_ub {θ : ℚ} {nm : Str} :
    {l : List (Str × Scraped)} → {s0 : ℚ} → {p : Scraped} → {s : ℚ} →
      fuzzySpec θ nm l s0 = some (p, s) →
      ∀ e ∈ l, θ ≤ similarity nm e.1 → similarity nm e.1 ≤ s
  | [], _, _, _, h => by cases h
  | (k, q) :: rest, s0, p, s, h => by
    rw [fuzzySpec_cons] at h
    by_cases hcond : s0 < similarity nm k ∧ θ ≤ similarity nm k
    · rw [if_pos hcond] at h
      cases hrec : fuzzySpec θ nm rest (similarity nm k) with
      | none =>
        rw [hrec] at h
        cases h
        intro e he hth
        rcases List.mem_cons.mp he with h1 | h1
        · rw [h1]
        · have hn := fuzzySpec_none hrec e h1
          by_contra hgt
          exact hn ⟨by rw [not_le] at hgt; exact hgt, hth⟩
      | some r =>
        obtain ⟨p2, s2⟩ := r
        rw [hrec] at h
        have hps : p2 = p ∧ s2 = s := by simpa using h
        rw [hps.1, hps.2] at hrec
        intro e he hth
        rcases List.mem_cons.mp he with h1 | h1
        · rw [h1]
          have hb := fuzzySpec_some hrec
          exact le_of_lt hb.1
        · exact fuzzySpec_ub hrec e h1 hth
    · rw [if_neg hcond] at h
      intro e he hth
      rcases List.mem_cons.mp he with h1 | h1
      · subst h1
        have hb := fuzzySpec_some h
        rcases not_and_or.mp hcond with h2 | h2
        · rw [not_lt] at h2
          exact h2.trans (le_of_lt hb.1)
        · exact absurd hth h2
      · exact fuzzySpec_ub h e h1 hth

theorem fuzzySpec_first {θ : ℚ} {nm : Str} :
    {l : List (Str × Scraped)} → {s0 : ℚ} → {p : Scraped} → {s : ℚ} →
      fuzzySpec θ nm l s0 = some (p, s) →
      ∃ e, l.find? (fun e => similarity nm e.1 == s) = some e ∧ e.2 = p
  | [], _, _, _, h => by cases h
  | (k, q) :: rest, s0, p, s, h => by
    rw [fuzzySpec_cons] at h
    by_cases hcond : s0 < similarity nm k ∧ θ ≤ similarity nm k
    · rw [if_pos hcond] at h
      cases hrec : fuzzySpec θ nm rest (similarity nm k) with
      | none =>
        rw [hrec] at h
        cases h
        refine ⟨(k, q), ?_, rfl⟩
        exact List.find?_cons_of_pos _ (by simp)
      | some r =>
        obtain ⟨p2, s2⟩ := r
        rw [hrec] at h
        have hps : p2 = p ∧ s2 = s := by simpa using h
        rw [hps.1, hps.2] at hrec
        have hb := fuzzySpec_some hrec
        obtain ⟨e, hfind, hep⟩ := fuzzySpec_first hrec
        refine ⟨e, ?_, hep⟩
        rw [List.find?_cons_of_neg _ ?_, hfind]
        simp only [beq_iff_eq]
        intro hcontra
        rw [hcontra] at hb
        exact absurd hb.1 (lt_irrefl _)
    · rw [if_neg hcond] at h
      have hb := fuzzySpec_some h
      obtain ⟨e, hfind, hep⟩ := fuzzySpec_first h
      refine ⟨e, ?_, hep⟩
      rw [List.find?_cons_of_neg _ ?_, hfind]
      simp only [beq_iff_eq]
      intro hcontra
      rcases not_and_or.mp hcond with h2 | h2
      · rw [not_lt] at h2
        rw [hcontra] at h2
        exact absurd hb.1 (not_lt.mpr h2)
      · rw [hcontra] at h2
        exact h2 hb.2.1

/-- Highest similarity score of a name against the normalized index
(0 when the index is empty, matching the loop's initial best score). -/
def bestScore (nm : Str) (l : List (Str × Scraped)) : ℚ :=
  (l.map (fun e => similarity nm e.1)).foldr max 0

theorem bestScore_cons (nm : Str) (e : Str × Scraped) (l : List (Str × Scraped)) :
    bestScore nm (e :: l) = max (similarity nm e.1) (bestScore nm l) := rfl

theorem le_bestScore {nm : Str} :
    {l : List (Str × Scraped)} → ∀ e ∈ l, similarity nm e.1 ≤ bestScore nm l
  | [], e, he => absurd he (List.not_mem_nil e)
  | f :: rest, e, he => by
    rw [bestScore_cons]
    rcases List.mem_cons.mp he with h1 | h1
    · rw [h1]
      exact le_max_left _ _
    · exact (le_bestScore e h1).trans (le_max_right _ _)

theorem bestScore_zero_or_mem (nm : Str) :
    (l : List (Str × Scraped)) →
      bestScore nm l = 0 ∨ ∃ e ∈ l, similarity nm e.1 = bestScore nm l
  | [] => Or.inl rfl
  | e :: rest => by
    rw [bestScore_cons]
    rcases le_or_lt (similarity nm e.1) (bestScore nm rest) with h | h
    · rw [max_eq_right h]
      rcases bestScore_zero_or_mem nm rest with h2 | ⟨f, hf, hsf⟩
      · exact Or.inl h2
      · exact Or.inr ⟨f, List.mem_cons_of_mem _ hf, hsf⟩
    · rw [max_eq_left (le_of_lt h)]
      exact Or.inr ⟨e, List.mem_cons_self _ _, rfl⟩

theorem containFold_cons (nm n k : Str) (p : Scraped) (rest : List (Str × Scraped)) :
    containFold nm n ((k, p) :: rest) =
      if nm <:+: k ∨ k <:+: nm then
        if mkRat 1 2 ≤ mkRat (min nm.length k.length : Int) (max nm.length k.length) then
          some { matrixName := n, scrapedName := p.productName
               , scrapedUrl := p.productUrl, scrapedData := some p
               , confidence := mkRat (min nm.length k.length : Int) (max nm.length k.length)
               , matchType := str "partial" }
        else containFold nm n rest
      else containFold nm n rest := rfl

theorem matchF_some (m : Matcher) (name : Str) :
    matchF m (some name) =
      if name.isEmpty then none
      else
        match dictFind m.nameLookup name with
        | some p =>
          some { matrixName := name, scrapedName := p.productName
               , scrapedUrl := p.productUrl, scrapedData := some p
               , confidence := 1, matchType := str "exact" }
        | none =>
          match dictFind m.normLookup (normM name) with
          | some p =>
            some { matrixName := name, scrapedName := p.productName
                 , scrapedUrl := p.productUrl, scrapedData := some p
                 , confidence := 1, matchType := str "exact_normalized" }
          | none =>
            match fuzzyFold m.threshold (normM name) m.normLookup (none, 0) with
            | (some p, bs) =>
              some { matrixName := name, scrapedName := p.productName
                   , scrapedUrl := p.productUrl, scrapedData := some p
                   , confidence := bs, matchType := str "fuzzy" }
            | (none, _) => containFold (normM name) name m.normLookup := rfl

theorem containFold_type {nm n : Str} :
    {l : List (Str × Scraped)} → {r : ProductMatch} →
      containFold nm n l = some r → r.matchType = str "partial"
  | [], r, h => by cases h
  | (k, p) :: rest, r, h => by
    rw [containFold_cons] at h
    by_cases h1 : nm <:+: k ∨ k <:+: nm
    · rw [if_pos h1] at h
      by_cases h2 : mkRat 1 2 ≤ mkRat (min nm.length k.length : Int) (max nm.length k.length)
      · rw [if_pos h2] at h
        cases h
        rfl
      · rw [if_neg h2] at h
        exact containFold_type h
    · rw [if_neg h1] at h
      exact containFold_type h

/-- C4 (amended): for a name with no exact and no exact-normalized match, the
fuzzy stage computes a similarity score in [0,1] against every normalized
indexed name, and `match` returns a ProductMatch of type "fuzzy" if and only
if the highest score is at least the threshold AND strictly positive (the
loop's initial best score of 0.0 is never beaten otherwise); the returned
confidence equals the highest score and the winner is the first index entry,
in iteration order, attaining that score. -/
theorem fuzzy_stage_spec (m : Matcher) (name : Str)
    (hne : name.isEmpty = false)
    (h1 : dictFind m.nameLookup name = none)
    (h2 : dictFind m.normLookup (normM name) = none) :
    ((∃ r, matchF m (some name) = some r ∧ r.matchType = str "fuzzy")
        ↔ (m.threshold ≤ bestScore (normM name) m.normLookup
            ∧ 0 < bestScore (normM name) m.normLookup))
    ∧ (∀ r, matchF m (some name) = some r → r.matchType = str "fuzzy" →
        r.confidence = bestScore (normM name) m.normLookup
        ∧ ∃ e, m.normLookup.find?
              (fun e => similarity (normM name) e.1 == bestScore (normM name) m.normLookup)
            = some e ∧ r.scrapedData = some e.2)
    ∧ (∀ e ∈ m.normLookup, 0 ≤ similarity (normM name) e.1
        ∧ similarity (normM name) e.1 ≤ 1) := by
  have hred : matchF m (some name) =
      (match fuzzySpec m.threshold (normM name) m.normLookup 0 with
       | some (p, s) =>
         some { matrixName := name, scrapedName := p.productName
              , scrapedUrl := p.productUrl, scrapedData := some p
              , confidence := s, matchType := str "fuzzy" }
       | none => containFold (normM name) name m.normLookup) := by
    rw [matchF_some, if_neg (by simp [hne]), h1, h2, fuzzyFold_eq_spec]
    cases fuzzySpec m.threshold (normM name) m.normLookup 0 with
    | none => rfl
    | some r =>
      obtain ⟨p, s⟩ := r
      rfl
  refine ⟨?_, ?_, fun e _ => similarity_bounds (normM name) e.1⟩
  · cases hspec : fuzzySpec m.threshold (normM name) m.normLookup 0 with
    | some r =>
      obtain ⟨p, s⟩ := r
      rw [hspec] at hred
      have hb := fuzzySpec_some hspec
      obtain ⟨hpos, hth, e0, he0, hse0⟩ := hb
      have hsM : s = bestScore (normM name) m.normLookup := by
        apply le_antisymm
        · rw [show s = similarity (normM name) e0.1 from hse0.symm]
          exact le_bestScore e0 he0
        · rcases bestScore_zero_or_mem (normM name) m.normLookup with hz | ⟨f, hf, hsf⟩
          · rw [hz]
            exact le_of_lt hpos
          · rw [hsf.symm]
            apply fuzzySpec_ub hspec f hf
            rw [hsf]
            have hsB : s ≤ bestScore (normM name) m.normLookup := by
              rw [show s = similarity (normM name) e0.1 from hse0.symm]
              exact le_bestScore e0 he0
            exact hth.trans hsB
      constructor
      · intro _
        rw [hsM] at hth hpos
        exact ⟨hth, hpos⟩
      · intro _
        exact ⟨{ matrixName := name, scrapedName := p.productName
               , scrapedUrl := p.productUrl, scrapedData := some p
               , confidence := s, matchType := str "fuzzy" }, hred, rfl⟩
    | none =>
      rw [hspec] at hred
      constructor
      · intro ⟨r, hr, hrt⟩
        rw [hred] at hr
        have := containFold_type hr
        rw [this] at hrt
        exact absurd hrt (by decide)
      · intro ⟨hthM, hposM⟩
        rcases bestScore_zero_or_mem (normM name) m.normLookup with hz | ⟨f, hf, hsf⟩
        · rw [hz] at hposM
          exact absurd hposM (lt_irrefl 0)
        · have hn := fuzzySpec_none hspec f hf
          rw [hsf] at hn
          exact absurd ⟨hposM, hthM⟩ hn
  · intro r hr hrt
    cases hspec : fuzzySpec m.threshold (normM name) m.normLookup 0 with
    | some rr =>
      obtain ⟨p, s⟩ := rr
      rw [hspec] at hred
      rw [hred] at hr
      have hb := fuzzySpec_some hspec
      obtain ⟨hpos, hth, e0, he0, hse0⟩ := hb
      have hsM : s = bestScore (normM name) m.normLookup := by
        apply le_antisymm
        · rw [show s = similarity (normM name) e0.1 from hse0.symm]
          exact le_bestScore e0 he0
        · rcases bestScore_zero_or_mem (normM name) m.normLookup with hz | ⟨f, hf, hsf⟩
          · rw [hz]
            exact le_of_lt hpos
          · rw [hsf.symm]
            apply fuzzySpec_ub hspec f hf
            rw [hsf]
            have hsB : s ≤ bestScore (normM name) m.normLookup := by
              rw [show s = similarity (normM name) e0.1 from hse0.symm]
              exact le_bestScore e0 he0
            exact hth.trans hsB
      obtain ⟨e, hfind, hep⟩ := fuzzySpec_first hspec
      cases hr
      refine ⟨hsM, e, ?_, by rw [hep]⟩
      rw [hsM] at hfind
      exact hfind
    | none =>
      rw [hspec] at hred
      rw [hred] at hr
      have := containFold_type hr
      rw [this] at hrt
      exact absurd hrt (by decide)

/-- Counterexample to C4 as stated: with threshold 0 and single indexed name
"ab", the matrix name "xy" has no exact or exact-normalized match and its
highest fuzzy score (0) is ≥ the configured threshold, yet `match` returns no
fuzzy ProductMatch at all — the loop requires `score > best_score` with
`best_score` initialized to 0.0, so a highest score of 0 never wins. -/
theorem fuzzy_threshold_edge_counterexample :
    dictFind (buildMatcher [⟨str "ab", none⟩] 0).nameLookup (str "xy") = none
    ∧ dictFind (buildMatcher [⟨str "ab", none⟩] 0).normLookup (normM (str "xy")) = none
    ∧ (buildMatcher [⟨str "ab", none⟩] 0).threshold
        ≤ bestScore (normM (str "xy")) (buildMatcher [⟨str "ab", none⟩] 0).normLookup
    ∧ matchF (buildMatcher [⟨str "ab", none⟩] 0) (some (str "xy")) = none := by
  decide

theorem fuzzy_stage_spec_witness :
    ∃ r, matchF (buildMatcher [⟨str "abcd", none⟩] (mkRat 1 2)) (some (str "abce")) = some r
      ∧ r.matchType = str "fuzzy" :=
  (fuzzy_stage_spec (buildMatcher [⟨str "abcd", none⟩] (mkRat 1 2)) (str "abce")
      (by decide) (by decide) (by decide)).1.mpr (by decide)

/-! ### C10: totality of match and safety of the length-ratio division -/

/-- The partial-containment stage with the division modelled as fallible, the
way Python evaluates it: `min(len)/max(len)` raises ZeroDivisionError when
both lengths are zero. -/
def containFoldE (nm matrixName : Str) :
    List (Str × Scraped) → Except Str (Option ProductMatch)
  | [] => Except.ok none
  | (k, p) :: rest =>
    if nm <:+: k ∨ k <:+: nm then
      if max nm.length k.length = 0 then Except.error (str "division by zero")
      else
        if mkRat 1 2 ≤ mkRat (min nm.length k.length : Int) (max nm.length k.length) then
          Except.ok (some
            { matrixName := matrixName, scrapedName := p.productName
            , scrapedUrl := p.productUrl, scrapedData := some p
            , confidence := mkRat (min nm.length k.length : Int) (max nm.length k.length)
            , matchType := str "partial" })
        else containFoldE nm matrixName rest
    else containFoldE nm matrixName rest

/-- `ProductMatcher.match` with the division hazard made explicit. -/
def matchE (m : Matcher) (inp : Option Str) : Except Str (Option ProductMatch) :=
  match inp with
  | none => Except.ok none
  | some name =>
    if name.isEmpty then Except.ok none
    else
      match dictFind m.nameLookup name with
      | some p =>
        Except.ok (some
          { matrixName := name, scrapedName := p.productName
          , scrapedUrl := p.productUrl, scrapedData := some p
          , confidence := 1, matchType := str "exact" })
      | none =>
        match dictFind m.normLookup (normM name) with
        | some p =>
          Except.ok (some
            { matrixName := name, scrapedName := p.productName
            , scrapedUrl := p.productUrl, scrapedData := some p
            , confidence := 1, matchType := str "exact_normalized" })
        | none =>
          match fuzzyFold m.threshold (normM name) m.normLookup (none, 0) with
          | (some p, bs) =>
            Except.ok (some
              { matrixName := name, scrapedName := p.productName
              , scrapedUrl := p.productUrl, scrapedData := some p
              , confidence := bs, matchType := str "fuzzy" })
          | (none, _) => containFoldE (normM name) name m.normLookup

theorem matchE_some (m : Matcher) (name : Str) :
    matchE m (some name) =
      if name.isEmpty then Except.ok none
      else
        match dictFind m.nameLookup name with
        | some p =>
          Except.ok (some
            { matrixName := name, scrapedName := p.productName
            , scrapedUrl := p.productUrl, scrapedData := some p
            , confidence := 1, matchType := str "exact" })
        | none =>
          match dictFind m.normLookup (normM name) with
          | some p =>
            Except.ok (some
              { matrixName := name, scrapedName := p.productName
              , scrapedUrl := p.productUrl, scrapedData := some p
              , confidence := 1, matchType := str "exact_normalized" })
          | none =>
            match fuzzyFold m.threshold (normM name) m.normLookup (none, 0) with
            | (some p, bs) =>
              Except.ok (some
                { matrixName := name, scrapedName := p.productName
                , scrapedUrl := p.productUrl, scrapedData := some p
                , confidence := bs, matchType := str "fuzzy" })
            | (none, _) => containFoldE (normM name) name m.normLookup := rfl

theorem dictFind_none {α : Type} {d : List (Str × α)} {k : Str}
    (h : dictFind d k = none) : ∀ e ∈ d, e.1 ≠ k := by
  unfold dictFind at h
  have hfind : d.find? (fun p => p.1 == k) = none := by
    cases hf : d.find? (fun p => p.1 == k) with
    | none => rfl
    | some p => rw [hf] at h; cases h
  intro e he
  have h2 := List.find?_eq_none.mp hfind e he
  simpa using h2

theorem containFoldE_ok {nm n : Str} :
    {l : List (Str × Scraped)} → (∀ e ∈ l, e.1 ≠ nm) →
      containFoldE nm n l = Except.ok (containFold nm n l)
  | [], _ => rfl
  | (k, p) :: rest, h => by
    have hk : k ≠ nm := h (k, p) (List.mem_cons_self _ _)
    have hrest : ∀ e ∈ rest, e.1 ≠ nm := fun e he => h e (List.mem_cons_of_mem _ he)
    rw [containFold_cons,
      show containFoldE nm n ((k, p) :: rest) =
        (if nm <:+: k ∨ k <:+: nm then
          if max nm.length k.length = 0 then Except.error (str "division by zero")
          else
            if mkRat 1 2 ≤ mkRat (min nm.length k.length : Int) (max nm.length k.length) then
              Except.ok (some
                { matrixName := n, scrapedName := p.productName
                , scrapedUrl := p.productUrl, scrapedData := some p
                , confidence := mkRat (min nm.length k.length : Int) (max nm.length k.length)
                , matchType := str "partial" })
            else containFoldE nm n rest
        else containFoldE nm n rest) from rfl]
    by_cases h1 : nm <:+: k ∨ k <:+: nm
    · rw [if_pos h1, if_pos h1]
      have hmax : max nm.length k.length ≠ 0 := by
        intro h0
        have hnm : nm.length = 0 := by omega
        have hkl : k.length = 0 := by omega
        exact hk (by
          rw [List.length_eq_zero.mp hkl, List.length_eq_zero.mp hnm])
      rw [if_neg hmax]
      by_cases h2 : mkRat 1 2 ≤ mkRat (min nm.length k.length : Int) (max nm.length k.length)
      · rw [if_pos h2, if_pos h2]
      · rw [if_neg h2, if_neg h2]
        exact containFoldE_ok hrest
    · rw [if_neg h1, if_neg h1]
      exact containFoldE_ok hrest

/-- C10: `match` is total and never raises: for every constructed matcher and
every input — `None`, the empty string, or any name, including names whose
normalized form is empty — the exception-aware model returns `ok` of the
total model's answer. In particular the length-ratio division of the
partial-containment stage never divides by zero: a falsy input returns
`None` before any index scan, and if the normalized input and an indexed key
were both empty the exact-normalized stage would already have matched. -/
theorem match_never_raises (m : Matcher) (inp : Option Str) :
    matchE m inp = Except.ok (matchF m inp) := by
  cases inp with
  | none => rfl
  | some name =>
    rw [matchE_some, matchF_some]
    by_cases hne : name.isEmpty = true
    · rw [if_pos hne, if_pos hne]
    · rw [if_neg hne, if_neg hne]
      cases hd1 : dictFind m.nameLookup name with
      | some p => rfl
      | none =>
        cases hd2 : dictFind m.normLookup (normM name) with
        | some p => rfl
        | none =>
          cases hf : fuzzyFold m.threshold (normM name) m.normLookup (none, 0) with
          | mk fst snd =>
            cases fst with
            | some p => rfl
            | none => exact containFoldE_ok (dictFind_none hd2)

/-! ### Entity extraction -/

/-- `EntityType` (six types are declared; `CATEGORY` is unused by extraction). -/
inductive EntityType
  | product
  | surface
  | soilage
  | location
  | benefit
  | category
  deriving DecidableEq

/-- `DISCONTINUED_PRODUCTS` from `config.matrix_config`. -/
def discontinuedProducts : List Str :=
  [ str "AERIAL", str "CIP ALKALI-07", str "CITRUS SPOTTER", str "FB-42"
  , str "HOOK ACID", str "HOOK OIL CONCENTRATE", str "LCD-11", str "POWERDET ECO"
  , str "SATIN FINISH SEALER", str "SOAK TANK POWDER DETERGENT LF-3"
  , str "SPICE", str "VAPOR-Q", str "VIGOUR" ]

/-- `str.upper` (ASCII fragment). -/
def upperS (s : Str) : Str := s.map upperC

/-- `EntityExtractor._is_discontinued`: strip and upper-case the name, compare
against the upper-cased discontinued list. -/
def isDiscontinued (name : Str) : Bool :=
  (discontinuedProducts.map upperS).contains (upperS (stripS name))

/-- A graph entity as created by the extractor; `is_discontinued` models the
optional `properties["is_discontinued"]` flag (false when absent). -/
structure Entity where
  entity_type : EntityType
  name : Str
  normalized_name : Str
  is_discontinued : Bool
  deriving DecidableEq

/-- The entity built by `_create_entity_if_new` for a fresh key. -/
def mkEntity (t : EntityType) (raw : Str) : Entity :=
  { entity_type := t
  , name := normalizeName raw
  , normalized_name := getNormalizedKey raw
  , is_discontinued := if t = EntityType.product then isDiscontinued raw else false }

/-- Per-type extraction state: the seen normalized keys and the created
entities of that type, in creation order. -/
structure TypedState where
  seen : List Str
  ents : List Entity
  deriving DecidableEq

def emptyTyped : TypedState := ⟨[], []⟩

/-- Whole extraction state: one per-type state for each of the five extracted
entity types, plus the duplicates counter. -/
structure ExtSt where
  prod : TypedState
  surf : TypedState
  soil : TypedState
  loc : TypedState
  ben : TypedState
  dups : Nat
  deriving DecidableEq

def emptyExtSt : ExtSt := ⟨emptyTyped, emptyTyped, emptyTyped, emptyTyped, emptyTyped, 0⟩

/-- `_create_entity_if_new` plus the caller's bookkeeping for one value: a
seen key counts one duplicate, a fresh key records the key and appends a new
entity. -/
def addValue (t : EntityType) (raw : Str) (ts : TypedState) (dups : Nat) :
    TypedState × Nat :=
  if ts.seen.contains (getNormalizedKey raw) then (ts, dups + 1)
  else ({ seen := ts.seen ++ [getNormalizedKey raw], ents := ts.ents ++ [mkEntity t raw] }, dups)

/-- One of the per-row value loops of `extract_entities` (the for-loop over
one list field, threading the seen set and duplicate counter). -/
def addList (t : EntityType) : List Str → TypedState → Nat → TypedState × Nat
  | [], ts, dups => (ts, dups)
  | n :: rest, ts, dups =>
    addList t rest (addValue t n ts dups).1 (addValue t n ts dups).2

/-- The typed state a value stream of the given entity type reads. -/
def getTS (st : ExtSt) : EntityType → TypedState
  | EntityType.product => st.prod
  | EntityType.surface => st.surf
  | EntityType.soilage => st.soil
  | EntityType.location => st.loc
  | EntityType.benefit => st.ben
  | EntityType.category => emptyTyped

/-- Write back the typed state of the given entity type. -/
def setTS (st : ExtSt) (t : EntityType) (ts : TypedState) : ExtSt :=
  match t with
  | EntityType.product => { st with prod := ts }
  | EntityType.surface => { st with surf := ts }
  | EntityType.soilage => { st with soil := ts }
  | EntityType.location => { st with loc := ts }
  | EntityType.benefit => { st with ben := ts }
  | EntityType.category => st

/-- Run one of the row's value loops against the state. -/
def stepStream (st : ExtSt) (p : EntityType × List Str) : ExtSt :=
  { setTS st p.1 (addList p.1 p.2 (getTS st p.1) st.dups).1 with
      dups := (addList p.1 p.2 (getTS st p.1) st.dups).2 }

/-- The seven value loops of one iteration of the row loop of
`extract_entities`, in source order: product name, surfaces, incompatible
surfaces (same Surface type and seen set), soilage, incompatible soilage
(same Soilage type), locations, benefits. -/
def rowStreams (row : MatrixRow) : List (EntityType × List Str) :=
  [ (EntityType.product, [row.product_name])
  , (EntityType.surface, row.surfaces)
  , (EntityType.surface, row.incompatible_surfaces)
  , (EntityType.soilage, row.soilage_types)
  , (EntityType.soilage, row.incompatible_soilage)
  , (EntityType.location, row.locations)
  , (EntityType.benefit, row.benefits) ]

/-- One iteration of the row loop of `extract_entities`. -/
def extractRow (st : ExtSt) (row : MatrixRow) : ExtSt :=
  (rowStreams row).foldl stepStream st

/-- `ExtractionResult`: per-type unique entity lists, total count and the
duplicates-removed count. -/
structure ExtractionResult where
  products : List Entity
  surfaces : List Entity
  soilages : List Entity
  locations : List Entity
  benefits : List Entity
  entity_count : Nat
  duplicates_removed : Nat
  deriving DecidableEq

/-- `EntityExtractor.extract_entities` over the default-config extractor. -/
def extractEntities (rows : List MatrixRow) : ExtractionResult :=
  let st := rows.foldl extractRow emptyExtSt
  { products := st.prod.ents
  , surfaces := st.surf.ents
  , soilages := st.soil.ents
  , locations := st.loc.ents
  , benefits := st.ben.ents
  , entity_count := st.prod.ents.length + st.surf.ents.length + st.soil.ents.length
      + st.loc.ents.length + st.ben.ents.length
  , duplicates_removed := st.dups }

/-! ### C2: extraction deduplication -/

/-- Invariant for one typed extraction state: entity keys mirror the seen
set in order, the seen set has no duplicates, and every created entity
carries the state's type. -/
def TInv (t : EntityType) (ts : TypedState) : Prop :=
  ts.ents.map (fun e => e.normalized_name) = ts.seen
  ∧ ts.seen.Nodup
  ∧ ∀ e ∈ ts.ents, e.entity_type = t

theorem tInv_empty (t : EntityType) : TInv t emptyTyped :=
  ⟨rfl, List.nodup_nil, fun e he => absurd he (List.not_mem_nil e)⟩

theorem addValue_inv {t : EntityType} (raw : Str) (ts : TypedState) (dups : Nat)
    (h : TInv t ts) :
    TInv t (addValue t raw ts dups).1
    ∧ (addValue t raw ts dups).1.ents.length + (addValue t raw ts dups).2
        = ts.ents.length + dups + 1 := by
  unfold addValue
  by_cases hc : ts.seen.contains (getNormalizedKey raw) = true
  · rw [if_pos hc]
    refine ⟨h, ?_⟩
    show ts.ents.length + (dups + 1) = ts.ents.length + dups + 1
    omega
  · rw [if_neg hc]
    have hmem : getNormalizedKey raw ∉ ts.seen := by simpa using hc
    refine ⟨⟨?_, ?_, ?_⟩, ?_⟩
    · show (ts.ents ++ [mkEntity t raw]).map (fun e => e.normalized_name)
        = ts.seen ++ [getNormalizedKey raw]
      rw [List.map_append, h.1]
      rfl
    · show (ts.seen ++ [getNormalizedKey raw]).Nodup
      rw [List.nodup_append]
      refine ⟨h.2.1, List.nodup_singleton _, ?_⟩
      intro a ha hb
      rw [List.mem_singleton.mp hb] at ha
      exact hmem ha
    · intro e he
      rcases List.mem_append.mp he with h1 | h1
      · exact h.2.2 e h1
      · rw [List.mem_singleton.mp h1]
        rfl
    · show (ts.ents ++ [mkEntity t raw]).length + dups = ts.ents.length + dups + 1
      rw [List.length_append]
      show ts.ents.length + 1 + dups = ts.ents.length + dups + 1
      omega

theorem addList_inv {t : EntityType} :
    (names : List Str) → (ts : TypedState) → (dups : Nat) → TInv t ts →
      TInv t (addList t names ts dups).1
      ∧ (addList t names ts dups).1.ents.length + (addList t names ts dups).2
          = ts.ents.length + dups + names.length
  | [], ts, dups, h => ⟨h, by simp [addList]⟩
  | n :: rest, ts, dups, h => by
    have h1 := addValue_inv n ts dups h
    have h2 := addList_inv rest (addValue t n ts dups).1 (addValue t n ts dups).2 h1.1
    show TInv t (addList t rest (addValue t n ts dups).1 (addValue t n ts dups).2).1
      ∧ (addList t rest (addValue t n ts dups).1 (addValue t n ts dups).2).1.ents.length
          + (addList t rest (addValue t n ts dups).1 (addValue t n ts dups).2).2
        = ts.ents.length + dups + (n :: rest).length
    refine ⟨h2.1, ?_⟩
    rw [h2.2, List.length_cons]
    have := h1.2
    omega

/-- Invariant over the whole extraction state. -/
def Inv (st : ExtSt) : Prop :=
  TInv EntityType.product st.prod ∧ TInv EntityType.surface st.surf
  ∧ TInv EntityType.soilage st.soil ∧ TInv EntityType.location st.loc
  ∧ TInv EntityType.benefit st.ben

/-- Total number of entities created so far. -/
def stTotal (st : ExtSt) : Nat :=
  st.prod.ents.length + st.surf.ents.length + st.soil.ents.length
    + st.loc.ents.length + st.ben.ents.length

/-- Number of values extracted from one row: the product name plus all six
list fields. -/
def rowValueCount (row : MatrixRow) : Nat :=
  1 + row.surfaces.length + row.incompatible_surfaces.length
    + row.soilage_types.length + row.incompatible_soilage.length
    + row.locations.length + row.benefits.length

theorem stepStream_inv {st : ExtSt} {p : EntityType × List Str}
    (hcat : p.1 ≠ EntityType.category) (h : Inv st) :
    Inv (stepStream st p)
    ∧ stTotal (stepStream st p) + (stepStream st p).dups
        = stTotal st + st.dups + p.2.length := by
  obtain ⟨t, names⟩ := p
  obtain ⟨hp, hsu, hso, hl, hb⟩ := h
  cases t with
  | product =>
    have h1 := addList_inv names st.prod st.dups hp
    refine ⟨⟨h1.1, hsu, hso, hl, hb⟩, ?_⟩
    unfold stTotal stepStream setTS getTS
    simp only []
    omega
  | surface =>
    have h1 := addList_inv names st.surf st.dups hsu
    refine ⟨⟨hp, h1.1, hso, hl, hb⟩, ?_⟩
    unfold stTotal stepStream setTS getTS
    simp only []
    omega
  | soilage =>
    have h1 := addList_inv names st.soil st.dups hso
    refine ⟨⟨hp, hsu, h1.1, hl, hb⟩, ?_⟩
    unfold stTotal stepStream setTS getTS
    simp only []
    omega
  | location =>
    have h1 := addList_inv names st.loc st.dups hl
    refine ⟨⟨hp, hsu, hso, h1.1, hb⟩, ?_⟩
    unfold stTotal stepStream setTS getTS
    simp only []
    omega
  | benefit =>
    have h1 := addList_inv names st.ben st.dups hb
    refine ⟨⟨hp, hsu, hso, hl, h1.1⟩, ?_⟩
    unfold stTotal stepStream setTS getTS
    simp only []
    omega
  | category => exact absurd rfl hcat

theorem extractRow_inv {st : ExtSt} (row : MatrixRow) (h : Inv st) :
    Inv (extractRow st row)
    ∧ stTotal (extractRow st row) + (extractRow st row).dups
        = stTotal st + st.dups + rowValueCount row := by
  have h1 := stepStream_inv (p := (EntityType.product, [row.product_name]))
    (by simp) h
  have h2 := stepStream_inv (p := (EntityType.surface, row.surfaces))
    (by simp) h1.1
  have h3 := stepStream_inv (p := (EntityType.surface, row.incompatible_surfaces))
    (by simp) h2.1
  have h4 := stepStream_inv (p := (EntityType.soilage, row.soilage_types))
    (by simp) h3.1
  have h5 := stepStream_inv (p := (EntityType.soilage, row.incompatible_soilage))
    (by simp) h4.1
  have h6 := stepStream_inv (p := (EntityType.location, row.locations))
    (by simp) h5.1
  have h7 := stepStream_inv (p := (EntityType.benefit, row.benefits))
    (by simp) h6.1
  have hrow : extractRow st row =
      stepStream (stepStream (stepStream (stepStream (stepStream (stepStream
        (stepStream st (EntityType.product, [row.product_name]))
        (EntityType.surface, row.surfaces))
        (EntityType.surface, row.incompatible_surfaces))
        (EntityType.soilage, row.soilage_types))
        (EntityType.soilage, row.incompatible_soilage))
        (EntityType.location, row.locations))
        (EntityType.benefit, row.benefits) := rfl
  rw [hrow]
  refine ⟨h7.1, ?_⟩
  have e1 := h1.2
  have e2 := h2.2
  have e3 := h3.2
  have e4 := h4.2
  have e5 := h5.2
  have e6 := h6.2
  have e7 := h7.2
  simp only [List.length_cons, List.length_nil] at e1 e2 e3 e4 e5 e6 e7
  unfold rowValueCount
  omega

theorem extract_fold_inv :
    (rows : List MatrixRow) → (st : ExtSt) → Inv st →
      Inv (rows.foldl extractRow st)
      ∧ stTotal (rows.foldl extractRow st) + (rows.foldl extractRow st).dups
          = stTotal st + st.dups + (rows.map rowValueCount).sum
  | [], st, h => ⟨h, by simp⟩
  | row :: rest, st, h => by
    have h1 := extractRow_inv row h
    have h2 := extract_fold_inv rest (extractRow st row) h1.1
    rw [List.foldl_cons]
    refine ⟨h2.1, ?_⟩
    rw [h2.2, List.map_cons, List.sum_cons]
    omega

/-- The pairwise relation of claim C2: no two entities agree on both type and
normalized key. -/
def DistinctKey (a b : Entity) : Prop :=
  a.entity_type ≠ b.entity_type ∨ a.normalized_name ≠ b.normalized_name

theorem tInv_pairwise {t : EntityType} {ts : TypedState} (h : TInv t ts) :
    ts.ents.Pairwise DistinctKey := by
  have hnd : (ts.ents.map (fun e => e.normalized_name)).Nodup := by
    rw [h.1]
    exact h.2.1
  have hnd2 : ts.ents.Pairwise (fun a b => ¬ a.normalized_name = b.normalized_name) :=
    List.pairwise_map.mp hnd
  exact hnd2.imp (fun hne => Or.inr hne)

/-- C2: within one `extract_entities` pass, `(entity_type, normalized_key)`
uniquely identifies an entity — across all five produced entity lists no two
entities agree on both the type and the normalized key; and every extracted
value either creates exactly one entity or increments `duplicates_removed`
by exactly one, so `entity_count + duplicates_removed` equals the total
number of extracted values (one product name plus the six list fields per
row). Two raw names with the same canonical synonym share a normalized key,
hence yield one entity and one duplicate increment. -/
theorem extract_entities_dedup (rows : List MatrixRow) :
    ((extractEntities rows).products ++ (extractEntities rows).surfaces
      ++ (extractEntities rows).soilages ++ (extractEntities rows).locations
      ++ (extractEntities rows).benefits).Pairwise DistinctKey
    ∧ (extractEntities rows).entity_count + (extractEntities rows).duplicates_removed
        = (rows.map rowValueCount).sum := by
  have hinv0 : Inv emptyExtSt :=
    ⟨tInv_empty _, tInv_empty _, tInv_empty _, tInv_empty _, tInv_empty _⟩
  obtain ⟨⟨hp, hsu, hso, hl, hb⟩, hcount⟩ := extract_fold_inv rows emptyExtSt hinv0
  constructor
  · show ((rows.foldl extractRow emptyExtSt).prod.ents
      ++ (rows.foldl extractRow emptyExtSt).surf.ents
      ++ (rows.foldl extractRow emptyExtSt).soil.ents
      ++ (rows.foldl extractRow emptyExtSt).loc.ents
      ++ (rows.foldl extractRow emptyExtSt).ben.ents).Pairwise DistinctKey
    have hT1 := hp.2.2
    have hT2 := hsu.2.2
    have hT3 := hso.2.2
    have hT4 := hl.2.2
    have hT5 := hb.2.2
    rw [List.pairwise_append, List.pairwise_append, List.pairwise_append,
      List.pairwise_append]
    refine ⟨⟨⟨⟨tInv_pairwise hp, tInv_pairwise hsu, ?_⟩, tInv_pairwise hso, ?_⟩,
      tInv_pairwise hl, ?_⟩, tInv_pairwise hb, ?_⟩
    · intro a ha b hb2
      exact Or.inl (by rw [hT1 a ha, hT2 b hb2]; intro hcontra; cases hcontra)
    · intro a ha b hb2
      rcases List.mem_append.mp ha with h1 | h1
      · exact Or.inl (by rw [hT1 a h1, hT3 b hb2]; intro hcontra; cases hcontra)
      · exact Or.inl (by rw [hT2 a h1, hT3 b hb2]; intro hcontra; cases hcontra)
    · intro a ha b hb2
      rcases List.mem_append.mp ha with h1 | h1
      · rcases List.mem_append.mp h1 with h2 | h2
        · exact Or.inl (by rw [hT1 a h2, hT4 b hb2]; intro hcontra; cases hcontra)
        · exact Or.inl (by rw [hT2 a h2, hT4 b hb2]; intro hcontra; cases hcontra)
      · exact Or.inl (by rw [hT3 a h1, hT4 b hb2]; intro hcontra; cases hcontra)
    · intro a ha b hb2
      rcases List.mem_append.mp ha with h1 | h1
      · rcases List.mem_append.mp h1 with h2 | h2
        · rcases List.mem_append.mp h2 with h3 | h3
          · exact Or.inl (by rw [hT1 a h3, hT5 b hb2]; intro hcontra; cases hcontra)
          · exact Or.inl (by rw [hT2 a h3, hT5 b hb2]; intro hcontra; cases hcontra)
        · exact Or.inl (by rw [hT3 a h2, hT5 b hb2]; intro hcontra; cases hcontra)
      · exact Or.inl (by rw [hT4 a h1, hT5 b hb2]; intro hcontra; cases hcontra)
  · show stTotal (rows.foldl extractRow emptyExtSt)
        + (rows.foldl extractRow emptyExtSt).dups = (rows.map rowValueCount).sum
    have hz : stTotal emptyExtSt = 0 := rfl
    have hz2 : emptyExtSt.dups = 0 := rfl
    omega

/-! ### Matrix parsing: the row-folding loop -/

/-- A raw table row after column normalization: each canonical field's cell,
`none` standing for NaN or a missing column. -/
structure RawRow where
  product_name : Option Str := none
  benefits : Option Str := none
  surfaces : Option Str := none
  incompatible_surfaces : Option Str := none
  soilage_types : Option Str := none
  incompatible_soilage : Option Str := none
  locations : Option Str := none
  deriving DecidableEq

/-- `MatrixParser.NULL_VALUES`. -/
def nullValues : List Str :=
  [str "not stated", str "n/a", str "na", str "none", str "-", str ""]

/-- `MatrixParser._clean_value`: `None` for NaN; otherwise strip, and return
`None` when the lower-cased result is a null placeholder. -/
def cleanValue (v : Option Str) : Option Str :=
  match v with
  | none => none
  | some s =>
    if nullValues.contains (lowerS (stripS s)) then none else some (stripS s)

/-- One field update of `MatrixParser._add_row_values`: append the cleaned
value when it is truthy and not already in the list. -/
def appendValue (l : List Str) (v : Option Str) : List Str :=
  match v with
  | none => l
  | some s => if s.isEmpty then l else if l.contains s then l else l ++ [s]

/-- `MatrixParser._add_row_values`: update all six list fields of the current
product from one raw row. -/
def addRowValues (p : MatrixRow) (r : RawRow) : MatrixRow :=
  { p with
    benefits := appendValue p.benefits (cleanValue r.benefits)
  , surfaces := appendValue p.surfaces (cleanValue r.surfaces)
  , incompatible_surfaces :=
      appendValue p.incompatible_surfaces (cleanValue r.incompatible_surfaces)
  , soilage_types := appendValue p.soilage_types (cleanValue r.soilage_types)
  , incompatible_soilage :=
      appendValue p.incompatible_soilage (cleanValue r.incompatible_soilage)
  , locations := appendValue p.locations (cleanValue r.locations) }

/-- One iteration of the `_parse_rows` loop. The state is the finished
product list plus the current product, if any. A truthy cleaned product name
that is not the repeated header label starts a new row (flushing the current
one); an empty product cell extends the current row, if any. -/
def parseStep (st : List MatrixRow × Option MatrixRow) (r : RawRow) :
    List MatrixRow × Option MatrixRow :=
  match cleanValue r.product_name with
  | some name =>
    if lowerS name = str "product" then st
    else
      (match st.2 with
       | some cur => st.1 ++ [cur]
       | none => st.1
      , some (addRowValues { product_name := name } r))
  | none =>
    match st.2 with
    | some cur => (st.1, some (addRowValues cur r))
    | none => st

/-- `MatrixParser._parse_rows`: fold the loop over all raw rows and flush the
final current product. -/
def parseRows (rs : List RawRow) : List MatrixRow :=
  match rs.foldl parseStep ([], none) with
  | (ps, some cur) => ps ++ [cur]
  | (ps, none) => ps

/-! ### C3: continuation rows -/

/-- Spec-side description of one list-field update on a continuation row:
non-empty, non-null values are appended unless already present; everything
else leaves the list unchanged. -/
def AppendSpec (old new : List Str) (v : Option Str) : Prop :=
  (∀ s, v = some s → s ≠ [] → s ∉ old → new = old ++ [s])
  ∧ (∀ s, v = some s → s ∈ old → new = old)
  ∧ (v = none → new = old)
  ∧ (∀ s, v = some s → s = [] → new = old)

theorem appendValue_spec (l : List Str) (v : Option Str) :
    AppendSpec l (appendValue l v) v := by
  refine ⟨?_, ?_, ?_, ?_⟩
  · intro s hv hne hmem
    rw [hv]
    show (if s.isEmpty then l else if l.contains s then l else l ++ [s]) = l ++ [s]
    rw [if_neg (by simpa [List.isEmpty_iff] using hne), if_neg (by simpa using hmem)]
  · intro s hv hmem
    rw [hv]
    show (if s.isEmpty then l else if l.contains s then l else l ++ [s]) = l
    by_cases he : s.isEmpty = true
    · rw [if_pos he]
    · rw [if_neg he, if_pos (by simpa using hmem)]
  · intro hv
    rw [hv]
    rfl
  · intro s hv he
    rw [hv]
    show (if s.isEmpty then l else if l.contains s then l else l ++ [s]) = l
    rw [if_pos (by simp [he])]

/-- C3: a row whose cleaned product-name cell is empty, while a current
product exists, never creates a new MatrixRow — the finished list and the
current product's name are unchanged — and each of its cleaned field values
is appended to the corresponding list of the current (most recently started)
product exactly when it is non-empty, non-null and not already in that list. -/
theorem continuation_row_extends (ps : List MatrixRow) (cur : MatrixRow) (r : RawRow)
    (h : cleanValue r.product_name = none) :
    parseStep (ps, some cur) r = (ps, some (addRowValues cur r))
    ∧ (addRowValues cur r).product_name = cur.product_name
    ∧ AppendSpec cur.benefits (addRowValues cur r).benefits (cleanValue r.benefits)
    ∧ AppendSpec cur.surfaces (addRowValues cur r).surfaces (cleanValue r.surfaces)
    ∧ AppendSpec cur.incompatible_surfaces (addRowValues cur r).incompatible_surfaces
        (cleanValue r.incompatible_surfaces)
    ∧ AppendSpec cur.soilage_types (addRowValues cur r).soilage_types
        (cleanValue r.soilage_types)
    ∧ AppendSpec cur.incompatible_soilage (addRowValues cur r).incompatible_soilage
        (cleanValue r.incompatible_soilage)
    ∧ AppendSpec cur.locations (addRowValues cur r).locations (cleanValue r.locations) := by
  refine ⟨?_, rfl, appendValue_spec _ _, appendValue_spec _ _, appendValue_spec _ _,
    appendValue_spec _ _, appendValue_spec _ _, appendValue_spec _ _⟩
  show (match cleanValue r.product_name with
    | some name =>
      if lowerS name = str "product" then (ps, some cur)
      else
        (match some cur with
         | some cur => ps ++ [cur]
         | none => ps
        , some (addRowValues { product_name := name } r))
    | none =>
      match some cur with
      | some cur => (ps, some (addRowValues cur r))
      | none => (ps, some cur)) = (ps, some (addRowValues cur r))
  rw [h]

theorem continuation_row_extends_witness :
    parseStep ([], some { product_name := str "A" })
        ({ surfaces := some (str " Timber ") } : RawRow)
      = ([], some (addRowValues { product_name := str "A" }
          ({ surfaces := some (str " Timber ") } : RawRow))) :=
  (continuation_row_extends [] { product_name := str "A" }
    ({ surfaces := some (str " Timber ") } : RawRow) (by decide)).1

/-! ### Relationship builder -/

/-- `RelationshipType` (the seven declared types). -/
inductive RelationshipType
  | suitable_for
  | incompatible_with
  | handles
  | unsuitable_for
  | used_in
  | has_benefit
  | belongs_to
  deriving DecidableEq

/-- A staged relationship: ids resolved in this run plus the `context`
property. -/
structure Relationship where
  source_entity_id : Str
  target_entity_id : Str
  relationship_type : RelationshipType
  context : Str
  deriving DecidableEq

/-- A call issued to the Memento client. -/
inductive Call
  | upsert (t : EntityType) (name : Str) (key : Str)
  | createRel (src : Str) (tgt : Str) (rt : RelationshipType) (context : Str)
  deriving DecidableEq

/-- Behaviour of the graph-store client as a function of the calls already
issued, so that a call may fail on one attempt and succeed on a later one. -/
structure Client where
  upsertR : List Call → EntityType → Str → Str → Except Str Str
  createR : List Call → Str → Str → RelationshipType → Str → Except Str Unit

/-- Builder state: the local entity-id cache, the two counters, and the
trace of issued client calls. -/
structure BuildSt where
  cache : List ((EntityType × Str) × Str)
  created : Nat
  fromCache : Nat
  calls : List Call
  deriving DecidableEq

def emptyBuildSt : BuildSt := ⟨[], 0, 0, []⟩

/-- Lookup in the entity-id cache. -/
def cacheFind (c : List ((EntityType × Str) × Str)) (k : EntityType × Str) : Option Str :=
  (c.find? (fun p => p.1 == k)).map Prod.snd

/-- `RelationshipBuilder._get_or_create_entity`: cache hit returns the cached
id and counts a cache hit; otherwise the client upsert is called (the call is
recorded whether or not it succeeds), a success is cached and counted as
created, and a client exception propagates to the per-row handler. -/
def getOrCreate (cl : Client) (st : BuildSt) (t : EntityType) (name : Str) :
    BuildSt × Except Str Str :=
  match cacheFind st.cache (t, getNormalizedKey name) with
  | some eid => ({ st with fromCache := st.fromCache + 1 }, Except.ok eid)
  | none =>
    match cl.upsertR st.calls t (normalizeName name) (getNormalizedKey name) with
    | Except.error e =>
      ({ st with calls := st.calls ++ [Call.upsert t (normalizeName name) (getNormalizedKey name)] }
      , Except.error e)
    | Except.ok eid =>
      ({ st with
          cache := st.cache ++ [((t, getNormalizedKey name), eid)]
        , created := st.created + 1
        , calls := st.calls ++ [Call.upsert t (normalizeName name) (getNormalizedKey name)] }
      , Except.ok eid)

/-- One staging loop of `_build_product_relationships`: resolve each value's
entity and stage one relationship; a client exception aborts the row (caught
by the caller) but keeps the state mutated so far. -/
def stageList (cl : Client) (pid : Str) (t : EntityType) (rt : RelationshipType)
    (ctx : Str) : List Str → BuildSt → List Relationship →
      BuildSt × Except Str (List Relationship)
  | [], st, acc => (st, Except.ok acc)
  | n :: rest, st, acc =>
    match getOrCreate cl st t n with
    | (st2, Except.error e) => (st2, Except.error e)
    | (st2, Except.ok tid) =>
      stageList cl pid t rt ctx rest st2 (acc ++ [⟨pid, tid, rt, ctx⟩])

/-- `_build_product_relationships`: the six staging loops in source order. -/
def stageRow (cl : Client) (pid : Str) (row : MatrixRow) (st : BuildSt) :
    BuildSt × Except Str (List Relationship) :=
  match stageList cl pid EntityType.surface RelationshipType.suitable_for
      (str "compatible surface") row.surfaces st [] with
  | (st1, Except.error e) => (st1, Except.error e)
  | (st1, Except.ok a1) =>
    match stageList cl pid EntityType.surface RelationshipType.incompatible_with
        (str "incompatible surface") row.incompatible_surfaces st1 a1 with
    | (st2, Except.error e) => (st2, Except.error e)
    | (st2, Except.ok a2) =>
      match stageList cl pid EntityType.soilage RelationshipType.handles
          (str "handles soilage") row.soilage_types st2 a2 with
      | (st3, Except.error e) => (st3, Except.error e)
      | (st3, Except.ok a3) =>
        match stageList cl pid EntityType.soilage RelationshipType.unsuitable_for
            (str "unsuitable for soilage") row.incompatible_soilage st3 a3 with
        | (st4, Except.error e) => (st4, Except.error e)
        | (st4, Except.ok a4) =>
          match stageList cl pid EntityType.location RelationshipType.used_in
              (str "used in location") row.locations st4 a4 with
          | (st5, Except.error e) => (st5, Except.error e)
          | (st5, Except.ok a5) =>
            stageList cl pid EntityType.benefit RelationshipType.has_benefit
              (str "product benefit") row.benefits st5 a5

/-- The per-row error string of `build_from_rows`. -/
def rowErrMsg (row : MatrixRow) (e : Str) : Str :=
  str "Error processing product '" ++ row.product_name ++ str "': " ++ e

/-- The per-relationship error string of `build_from_rows`. -/
def relErrMsg (e : Str) : Str := str "Error creating relationship: " ++ e

/-- One iteration of the row loop of `build_from_rows`: resolve the product,
stage the row's relationships, and catch any exception as one error string,
leaving the already-staged relationships untouched. -/
def rowStep (cl : Client) (s : BuildSt × List Relationship × List Str)
    (row : MatrixRow) : BuildSt × List Relationship × List Str :=
  match getOrCreate cl s.1 EntityType.product row.product_name with
  | (st1, Except.error e) => (st1, s.2.1, s.2.2 ++ [rowErrMsg row e])
  | (st1, Except.ok pid) =>
    match stageRow cl pid row st1 with
    | (st2, Except.error e) => (st2, s.2.1, s.2.2 ++ [rowErrMsg row e])
    | (st2, Except.ok rels) => (st2, s.2.1 ++ rels, s.2.2)

/-- The relationship-creation loop of `build_from_rows`: each failure is
recorded as one error string and does not block the remaining creations. -/
def createRels (cl : Client) :
    List Relationship → BuildSt → Nat → List Str → BuildSt × Nat × List Str
  | [], st, n, errs => (st, n, errs)
  | rel :: rest, st, n, errs =>
    match cl.createR st.calls rel.source_entity_id rel.target_entity_id
        rel.relationship_type rel.context with
    | Except.error e =>
      createRels cl rest
        { st with calls := st.calls ++ [Call.createRel rel.source_entity_id
            rel.target_entity_id rel.relationship_type rel.context] }
        n (errs ++ [relErrMsg e])
    | Except.ok _ =>
      createRels cl rest
        { st with calls := st.calls ++ [Call.createRel rel.source_entity_id
            rel.target_entity_id rel.relationship_type rel.context] }
        (n + 1) errs

/-- `BuildResult`. -/
structure BuildResult where
  entities_created : Nat
  entities_cached : Nat
  relationships_created : Nat
  errors : List Str
  deriving DecidableEq

/-- `RelationshipBuilder.build_from_rows`: the row loop, then the creation
loop; also returns the final builder state (with its call trace). -/
def buildFromRows (cl : Client) (rows : List MatrixRow) : BuildResult × BuildSt :=
  match rows.foldl (rowStep cl) (emptyBuildSt, [], []) with
  | (st, staged, rowErrs) =>
    match createRels cl staged st 0 rowErrs with
    | (st2, nrel, errs) =>
      ({ entities_created := st2.created
        , entities_cached := st2.fromCache
        , relationships_created := nrel
        , errors := errs }, st2)

/-- A client that always succeeds, for sanity probes. -/
def okClient : Client :=
  { upsertR := fun _ _ _ k => Except.ok (str "id-" ++ k)
  , createR := fun _ _ _ _ _ => Except.ok () }

/-! ### C7: per-row and per-relationship error isolation -/

/-- A client whose upserts always fail (used as a concrete witness input). -/
def failClient : Client :=
  { upsertR := fun _ _ _ _ => Except.error (str "boom")
  , createR := fun _ _ _ _ _ => Except.ok () }

/-- C7: in `build_from_rows` an exception raised while resolving entities or
staging relationships for one row is caught and appended as one error
string, the relationships staged by earlier rows are kept, and the row loop
continues with the remaining rows (the fold literally decomposes around any
row); likewise a failure creating one staged relationship appends one error
string, is not counted, and the creation loop continues with the remaining
relationships. -/
theorem build_errors_isolated (cl : Client) (p : List MatrixRow) (r : MatrixRow)
    (q : List MatrixRow) :
    ((p ++ r :: q).foldl (rowStep cl) (emptyBuildSt, [], [])
        = q.foldl (rowStep cl) (rowStep cl (p.foldl (rowStep cl) (emptyBuildSt, [], [])) r))
    ∧ (∀ (s : BuildSt × List Relationship × List Str) (st1 : BuildSt) (e : Str),
        getOrCreate cl s.1 EntityType.product r.product_name = (st1, Except.error e) →
        rowStep cl s r = (st1, s.2.1, s.2.2 ++ [rowErrMsg r e]))
    ∧ (∀ (s : BuildSt × List Relationship × List Str) (st1 st2 : BuildSt)
        (pid e : Str),
        getOrCreate cl s.1 EntityType.product r.product_name = (st1, Except.ok pid) →
        stageRow cl pid r st1 = (st2, Except.error e) →
        rowStep cl s r = (st2, s.2.1, s.2.2 ++ [rowErrMsg r e]))
    ∧ (∀ (rel : Relationship) (rest : List Relationship) (st : BuildSt) (n : Nat)
        (errs : List Str) (e : Str),
        cl.createR st.calls rel.source_entity_id rel.target_entity_id
            rel.relationship_type rel.context = Except.error e →
        createRels cl (rel :: rest) st n errs
          = createRels cl rest
              { st with calls := st.calls ++ [Call.createRel rel.source_entity_id
                  rel.target_entity_id rel.relationship_type rel.context] }
              n (errs ++ [relErrMsg e])) := by
  refine ⟨?_, ?_, ?_, ?_⟩
  · rw [List.foldl_append, List.foldl_cons]
  · intro s st1 e h
    unfold rowStep
    rw [h]
  · intro s st1 st2 pid e h1 h2
    unfold rowStep
    rw [h1]
    show (match stageRow cl pid r st1 with
      | (st2, Except.error e) => (st2, s.2.1, s.2.2 ++ [rowErrMsg r e])
      | (st2, Except.ok rels) => (st2, s.2.1 ++ rels, s.2.2))
      = (st2, s.2.1, s.2.2 ++ [rowErrMsg r e])
    rw [h2]
  · intro rel rest st n errs e h
    rw [createRels, h]

theorem build_errors_isolated_witness :
    rowStep failClient (emptyBuildSt, [], []) { product_name := str "A" }
      = ({ emptyBuildSt with
            calls := [Call.upsert EntityType.product (str "A") (str "a")] }
        , [], [rowErrMsg { product_name := str "A" } (str "boom")]) :=
  (build_errors_isolated failClient [] { product_name := str "A" } []).2.1
    (emptyBuildSt, [], [])
    { emptyBuildSt with calls := [Call.upsert EntityType.product (str "A") (str "a")] }
    (str "boom") (by rfl)

/-! ### C5: at most one upsert per (type, normalized key) -/

/-- The (type, normalized key) pairs of the upsert calls in a trace. -/
def upsertKeys (calls : List Call) : List (EntityType × Str) :=
  calls.filterMap (fun c =>
    match c with
    | Call.upsert t _ k => some (t, k)
    | Call.createRel _ _ _ _ => none)

/-- Builder-state invariant: the keys of the issued upsert calls are exactly
the cache keys in insertion order (hence duplicate-free), and the created
counter counts the upsert calls. -/
def BInv (st : BuildSt) : Prop :=
  upsertKeys st.calls = st.cache.map Prod.fst
  ∧ (st.cache.map Prod.fst).Nodup
  ∧ st.created = (upsertKeys st.calls).length

/-- A client whose upsert always succeeds. -/
def UpsertOk (cl : Client) : Prop :=
  ∀ tr t n k, ∃ eid, cl.upsertR tr t n k = Except.ok eid

theorem upsertKeys_append (c1 c2 : List Call) :
    upsertKeys (c1 ++ c2) = upsertKeys c1 ++ upsertKeys c2 := by
  unfold upsertKeys
  rw [List.filterMap_append]

theorem cacheFind_none {c : List ((EntityType × Str) × Str)} {k : EntityType × Str}
    (h : cacheFind c k = none) : ∀ p ∈ c, p.1 ≠ k := by
  unfold cacheFind at h
  have hfind : c.find? (fun p => p.1 == k) = none := by
    cases hf : c.find? (fun p => p.1 == k) with
    | none => rfl
    | some p => rw [hf] at h; cases h
  intro p hp
  have h2 := List.find?_eq_none.mp hfind p hp
  simpa using h2

theorem getOrCreate_ok {cl : Client} (hcl : UpsertOk cl) {st : BuildSt}
    (t : EntityType) (name : Str) (h : BInv st) :
    ∃ st2 eid, getOrCreate cl st t name = (st2, Except.ok eid)
      ∧ BInv st2
      ∧ st2.created + st2.fromCache = st.created + st.fromCache + 1 := by
  unfold getOrCreate
  cases hc : cacheFind st.cache (t, getNormalizedKey name) with
  | some eid =>
    exact ⟨{ st with fromCache := st.fromCache + 1 }, eid, rfl, h, by
      show st.created + (st.fromCache + 1) = st.created + st.fromCache + 1
      omega⟩
  | none =>
    obtain ⟨eid, heid⟩ := hcl st.calls t (normalizeName name) (getNormalizedKey name)
    rw [heid]
    refine ⟨_, eid, rfl, ⟨?_, ?_, ?_⟩, ?_⟩
    · show upsertKeys (st.calls ++ [Call.upsert t (normalizeName name) (getNormalizedKey name)])
        = (st.cache ++ [((t, getNormalizedKey name), eid)]).map Prod.fst
      rw [upsertKeys_append, List.map_append, h.1]
      rfl
    · show ((st.cache ++ [((t, getNormalizedKey name), eid)]).map Prod.fst).Nodup
      rw [List.map_append, List.nodup_append]
      refine ⟨h.2.1, by simp, ?_⟩
      intro a ha hb
      simp only [List.map_cons, List.map_nil, List.mem_singleton] at hb
      obtain ⟨p, hp, hpa⟩ := List.mem_map.mp ha
      rw [hb] at hpa
      exact cacheFind_none hc p hp hpa
    · show st.created + 1 =
        (upsertKeys (st.calls ++ [Call.upsert t (normalizeName name)
          (getNormalizedKey name)])).length
      rw [upsertKeys_append, List.length_append, h.2.2]
      rfl
    · show st.created + 1 + st.fromCache = st.created + st.fromCache + 1
      omega

theorem stageList_ok {cl : Client} (hcl : UpsertOk cl) (pid : Str) (t : EntityType)
    (rt : RelationshipType) (ctx : Str) :
    (names : List Str) → (st : BuildSt) → (acc : List Relationship) → BInv st →
      ∃ st2 rels, stageList cl pid t rt ctx names st acc = (st2, Except.ok rels)
        ∧ BInv st2
        ∧ st2.created + st2.fromCache = st.created + st.fromCache + names.length
  | [], st, acc, h => ⟨st, acc, rfl, h, by simp⟩
  | n :: rest, st, acc, h => by
    obtain ⟨stA, eid, hgoc, hA, hcount⟩ := getOrCreate_ok hcl t n h
    obtain ⟨st2, rels, hrec, h2, hcount2⟩ :=
      stageList_ok hcl pid t rt ctx rest stA (acc ++ [⟨pid, eid, rt, ctx⟩]) hA
    refine ⟨st2, rels, ?_, h2, ?_⟩
    · show (match getOrCreate cl st t n with
        | (st2, Except.error e) => (st2, Except.error e)
        | (st2, Except.ok tid) =>
          stageList cl pid t rt ctx rest st2 (acc ++ [⟨pid, tid, rt, ctx⟩]))
        = (st2, Except.ok rels)
      rw [hgoc]
      exact hrec
    · rw [hcount2, List.length_cons]
      omega

theorem stageRow_ok {cl : Client} (hcl : UpsertOk cl) {pid : Str} (row : MatrixRow)
    {st : BuildSt} (h : BInv st) :
    ∃ st2 rels, stageRow cl pid row st = (st2, Except.ok rels)
      ∧ BInv st2
      ∧ st2.created + st2.fromCache = st.created + st.fromCache
          + row.surfaces.length + row.incompatible_surfaces.length
          + row.soilage_types.length + row.incompatible_soilage.length
          + row.locations.length + row.benefits.length := by
  obtain ⟨s1, a1, e1, h1, c1⟩ := stageList_ok hcl pid EntityType.surface
    RelationshipType.suitable_for (str "compatible surface") row.surfaces st [] h
  obtain ⟨s2, a2, e2, h2, c2⟩ := stageList_ok hcl pid EntityType.surface
    RelationshipType.incompatible_with (str "incompatible surface")
    row.incompatible_surfaces s1 a1 h1
  obtain ⟨s3, a3, e3, h3, c3⟩ := stageList_ok hcl pid EntityType.soilage
    RelationshipType.handles (str "handles soilage") row.soilage_types s2 a2 h2
  obtain ⟨s4, a4, e4, h4, c4⟩ := stageList_ok hcl pid EntityType.soilage
    RelationshipType.unsuitable_for (str "unsuitable for soilage")
    row.incompatible_soilage s3 a3 h3
  obtain ⟨s5, a5, e5, h5, c5⟩ := stageList_ok hcl pid EntityType.location
    RelationshipType.used_in (str "used in location") row.locations s4 a4 h4
  obtain ⟨s6, a6, e6, h6, c6⟩ := stageList_ok hcl pid EntityType.benefit
    RelationshipType.has_benefit (str "product benefit") row.benefits s5 a5 h5
  refine ⟨s6, a6, ?_, h6, by omega⟩
  unfold stageRow
  simp only [e1, e2, e3, e4, e5, e6]

theorem rowStep_ok {cl : Client} (hcl : UpsertOk cl) (row : MatrixRow)
    {st : BuildSt} (staged : List Relationship) (errs : List Str) (h : BInv st) :
    ∃ st2 rels, rowStep cl (st, staged, errs) row = (st2, staged ++ rels, errs)
      ∧ BInv st2
      ∧ st2.created + st2.fromCache = st.created + st.fromCache + rowValueCount row := by
  obtain ⟨stA, pid, hgoc, hA, hcA⟩ := getOrCreate_ok hcl EntityType.product row.product_name h
  obtain ⟨st2, rels, hrow, h2, hc2⟩ := stageRow_ok hcl row hA
  refine ⟨st2, rels, ?_, h2, ?_⟩
  · unfold rowStep
    rw [hgoc]
    show (match stageRow cl pid row stA with
      | (st2, Except.error e) => (st2, (st, staged, errs).2.1, (st, staged, errs).2.2
          ++ [rowErrMsg row e])
      | (st2, Except.ok rels) => (st2, (st, staged, errs).2.1 ++ rels, (st, staged, errs).2.2))
      = (st2, staged ++ rels, errs)
    rw [hrow]
  · unfold rowValueCount
    omega

theorem buildFold_ok {cl : Client} (hcl : UpsertOk cl) :
    (rows : List MatrixRow) → (st : BuildSt) → (staged : List Relationship) →
      (errs : List Str) → BInv st →
      ∃ st2 staged2, rows.foldl (rowStep cl) (st, staged, errs) = (st2, staged2, errs)
        ∧ BInv st2
        ∧ st2.created + st2.fromCache
            = st.created + st.fromCache + (rows.map rowValueCount).sum
  | [], st, staged, errs, h => ⟨st, staged, rfl, h, by simp⟩
  | row :: rest, st, staged, errs, h => by
    obtain ⟨stA, rels, hstep, hA, hcA⟩ := rowStep_ok hcl row staged errs h
    obtain ⟨st2, staged2, hrec, h2, hc2⟩ :=
      buildFold_ok hcl rest stA (staged ++ rels) errs hA
    refine ⟨st2, staged2, ?_, h2, ?_⟩
    · rw [List.foldl_cons, hstep]
      exact hrec
    · rw [hc2, List.map_cons, List.sum_cons]
      omega

theorem createRels_preserves (cl : Client) :
    (rels : List Relationship) → (st : BuildSt) → (n : Nat) → (errs : List Str) →
      (createRels cl rels st n errs).1.created = st.created
      ∧ (createRels cl rels st n errs).1.fromCache = st.fromCache
      ∧ upsertKeys (createRels cl rels st n errs).1.calls = upsertKeys st.calls
  | [], st, n, errs => ⟨rfl, rfl, rfl⟩
  | rel :: rest, st, n, errs => by
    rw [createRels]
    cases hc : cl.createR st.calls rel.source_entity_id rel.target_entity_id
        rel.relationship_type rel.context with
    | error e =>
      have h := createRels_preserves cl rest
        { st with calls := st.calls ++ [Call.createRel rel.source_entity_id
            rel.target_entity_id rel.relationship_type rel.context] }
        n (errs ++ [relErrMsg e])
      refine ⟨h.1, h.2.1, ?_⟩
      rw [h.2.2, upsertKeys_append]
      show upsertKeys st.calls ++ [] = upsertKeys st.calls
      simp
    | ok u =>
      have h := createRels_preserves cl rest
        { st with calls := st.calls ++ [Call.createRel rel.source_entity_id
            rel.target_entity_id rel.relationship_type rel.context] }
        (n + 1) errs
      refine ⟨h.1, h.2.1, ?_⟩
      rw [h.2.2, upsertKeys_append]
      show upsertKeys st.calls ++ [] = upsertKeys st.calls
      simp

/-- C5 (amended): within one `build_from_rows` run against a client whose
upserts succeed, the builder issues at most one upsert per
`(entity_type, normalized_key)` — the upsert-call keys in the final trace
are duplicate-free — `entities_created` counts exactly those upsert calls,
and every other occurrence of an already-created key is a cache hit, so
`entities_created + entities_cached` equals the total number of entity
occurrences (one product plus the six list fields per row). -/
theorem builder_upsert_once (cl : Client) (rows : List MatrixRow)
    (hcl : ∀ tr t n k, ∃ eid, cl.upsertR tr t n k = Except.ok eid) :
    (upsertKeys (buildFromRows cl rows).2.calls).Nodup
    ∧ (buildFromRows cl rows).1.entities_created
        = (upsertKeys (buildFromRows cl rows).2.calls).length
    ∧ (buildFromRows cl rows).1.entities_created
        + (buildFromRows cl rows).1.entities_cached
        = (rows.map rowValueCount).sum := by
  have h0 : BInv emptyBuildSt := ⟨rfl, List.nodup_nil, rfl⟩
  obtain ⟨st2, staged2, hfold, h2, hc2⟩ := buildFold_ok hcl rows emptyBuildSt [] [] h0
  have hcr := createRels_preserves cl staged2 st2 0 []
  have hbuild : buildFromRows cl rows
      = ({ entities_created := (createRels cl staged2 st2 0 []).1.created
         , entities_cached := (createRels cl staged2 st2 0 []).1.fromCache
         , relationships_created := (createRels cl staged2 st2 0 []).2.1
         , errors := (createRels cl staged2 st2 0 []).2.2 }
        , (createRels cl staged2 st2 0 []).1) := by
    unfold buildFromRows
    rw [hfold]
  rw [hbuild]
  refine ⟨?_, ?_, ?_⟩
  · show (upsertKeys (createRels cl staged2 st2 0 []).1.calls).Nodup
    rw [hcr.2.2, h2.1]
    exact h2.2.1
  · show (createRels cl staged2 st2 0 []).1.created
      = (upsertKeys (createRels cl staged2 st2 0 []).1.calls).length
    rw [hcr.1, hcr.2.2]
    exact h2.2.2
  · show (createRels cl staged2 st2 0 []).1.created
        + (createRels cl staged2 st2 0 []).1.fromCache
      = (rows.map rowValueCount).sum
    rw [hcr.1, hcr.2.1]
    have hz : emptyBuildSt.created = 0 := rfl
    have hz2 : emptyBuildSt.fromCache = 0 := rfl
    omega

theorem builder_upsert_once_witness :
    (upsertKeys (buildFromRows okClient
        [{ product_name := str "A", surfaces := [str "wood", str "Timber"] }]).2.calls).Nodup
    ∧ (buildFromRows okClient
        [{ product_name := str "A", surfaces := [str "wood", str "Timber"] }]).1.entities_created
        = (upsertKeys (buildFromRows okClient
            [{ product_name := str "A", surfaces := [str "wood", str "Timber"] }]).2.calls).length
    ∧ (buildFromRows okClient
        [{ product_name := str "A", surfaces := [str "wood", str "Timber"] }]).1.entities_created
        + (buildFromRows okClient
            [{ product_name := str "A", surfaces := [str "wood", str "Timber"] }]).1.entities_cached
        = ([{ product_name := str "A", surfaces := [str "wood", str "Timber"] }
            ].map rowValueCount).sum :=
  builder_upsert_once okClient
    [{ product_name := str "A", surfaces := [str "wood", str "Timber"] }]
    (fun _ _ _ k => ⟨str "id-" ++ k, rfl⟩)

/-- A client that fails the first upsert attempt and succeeds afterwards. -/
def failFirstClient : Client :=
  { upsertR := fun tr _ _ _ =>
      if tr.isEmpty then Except.error (str "boom") else Except.ok (str "id")
  , createR := fun _ _ _ _ _ => Except.ok () }

/-- Counterexample to C5 as stated: when the first upsert of a key raises
(the exception is recorded as a row error and the key is never cached), a
later row with the same product issues a second upsert for the very same
`(entity_type, normalized_key)` within the same run. -/
theorem builder_upsert_once_counterexample :
    upsertKeys (buildFromRows failFirstClient
        [{ product_name := str "A" }, { product_name := str "A" }]).2.calls
      = [(EntityType.product, str "a"), (EntityType.product, str "a")]
    ∧ ¬ (upsertKeys (buildFromRows failFirstClient
        [{ product_name := str "A" }, { product_name := str "A" }]).2.calls).Nodup
    ∧ (buildFromRows failFirstClient
        [{ product_name := str "A" }, { product_name := str "A" }]).1.errors.length = 1 := by
  decide

/-! ### Matrix file loading and the processor
(`MatrixParser._load_file` / `_find_header_row` / `_normalize_columns` /
`parse`, `MatrixProcessor.process` / `_count_relationships`). -/

/-- The suffix class `_load_file` dispatches on (`file_path.suffix.lower()`):
`.csv`, `.xlsx`, `.xls`, or anything else. -/
inductive FileKind
  | csv
  | xlsx
  | xls
  | other
  deriving DecidableEq

/-- A matrix file as the parser sees it: whether the pandas reader can load
it at all (file exists, is well-formed and non-empty), its suffix class, and
the raw sheet cells (`none` models a NaN/blank cell). -/
structure MatrixFile where
  readable : Bool
  kind : FileKind
  cells : List (List (Option Str))
  deriving DecidableEq

/-- `_find_header_row`, test for one raw row: some non-NaN cell whose
stringified, lower-cased, stripped text is exactly `"product"`. -/
def isHeaderRow (row : List (Option Str)) : Bool :=
  row.any (fun c =>
    match c with
    | some s => stripS (lowerS s) == str "product"
    | none => false)

/-- `_find_header_row` combined with `pd.read_excel(header=header_row)`:
drop leading rows up to the first header-looking row, returning that header
and the remaining data rows; `none` when no row qualifies. -/
def findHeader : List (List (Option Str)) → Option (List (Option Str) × List (List (Option Str)))
  | [] => none
  | row :: rest => if isHeaderRow row then some (row, rest) else findHeader rest

/-- The Excel branch of `_load_file`: a reader failure surfaces as the
wrapped load error; otherwise locate the header row or fail with the
specific `MatrixParseError`. Error messages are modelled by their fixed
prefix (the Python messages interpolate dynamic detail after it). -/
def loadExcel (f : MatrixFile) :
    Except Str (List (Option Str) × List (List (Option Str))) :=
  if f.readable then
    match findHeader f.cells with
    | some hd => Except.ok hd
    | none => Except.error (str "Could not find header row with 'Product' column")
  else Except.error (str "Failed to load file")

/-- `MatrixParser._load_file`: an unknown suffix is rejected without touching
the file; a CSV takes its first physical row as the header (`pd.read_csv`,
which raises on a missing or empty file); Excel files go through the
header-row search. -/
def loadFile (f : MatrixFile) :
    Except Str (List (Option Str) × List (List (Option Str))) :=
  match f.kind with
  | FileKind.other => Except.error (str "Unsupported file type")
  | FileKind.csv =>
    match f.readable, f.cells with
    | false, _ => Except.error (str "Failed to load file")
    | true, [] => Except.error (str "Failed to load file")
    | true, hdr :: data => Except.ok (hdr, data)
  | FileKind.xlsx => loadExcel f
  | FileKind.xls => loadExcel f

/-- Does a header cell map to the given `COLUMN_MAPPING` keys? (non-NaN, and
its stringified, lower-cased, stripped text is one of the keys). -/
def headerMatches (keys : List Str) (c : Option Str) : Bool :=
  match c with
  | some s => keys.contains (stripS (lowerS s))
  | none => false

/-- Position of the first column whose header maps to the given
`COLUMN_MAPPING` keys. -/
def findCol (hdr : List (Option Str)) (keys : List Str) : Option Nat :=
  hdr.findIdx? (headerMatches keys)

/-- Column positions of each canonical field after `_normalize_columns`
(the first header matching each `COLUMN_MAPPING` key group; `locations` has
the two key spellings). -/
structure ColIdx where
  product_name : Option Nat
  benefits : Option Nat
  surfaces : Option Nat
  incompatible_surfaces : Option Nat
  soilage_types : Option Nat
  incompatible_soilage : Option Nat
  locations : Option Nat
  deriving DecidableEq

/-- `MatrixParser._normalize_columns`: locate each mapped column and require
the product column. -/
def normalizeColumns (hdr : List (Option Str)) : Except Str ColIdx :=
  match findCol hdr [str "product"] with
  | none => Except.error (str "Missing required 'Product' column")
  | some i =>
    Except.ok
      { product_name := some i
      , benefits := findCol hdr [str "key benefits"]
      , surfaces := findCol hdr [str "surface"]
      , incompatible_surfaces := findCol hdr [str "incompatible surface"]
      , soilage_types := findCol hdr [str "soilage"]
      , incompatible_soilage := findCol hdr [str "incompatible soilage"]
      , locations := findCol hdr [str "location / area", str "location/area"] }

/-- Read the cell of a data row at a mapped column position; a missing
column or a short row reads as NaN. -/
def getCell (row : List (Option Str)) : Option Nat → Option Str
  | none => none
  | some j =>
    match row.get? j with
    | some c => c
    | none => none

/-- View one data row through the column map as the parser's raw-row input. -/
def toRawRow (ci : ColIdx) (row : List (Option Str)) : RawRow :=
  { product_name := getCell row ci.product_name
  , benefits := getCell row ci.benefits
  , surfaces := getCell row ci.surfaces
  , incompatible_surfaces := getCell row ci.incompatible_surfaces
  , soilage_types := getCell row ci.soilage_types
  , incompatible_soilage := getCell row ci.incompatible_soilage
  , locations := getCell row ci.locations }

/-- `MatrixParser.parse`: load the file, normalize columns, parse the data
rows; every `MatrixParseError` propagates as its message. -/
def parseFile (f : MatrixFile) : Except Str (List MatrixRow) :=
  match loadFile f with
  | Except.error e => Except.error e
  | Except.ok (hdr, data) =>
    match normalizeColumns hdr with
    | Except.error e => Except.error e
    | Except.ok ci => Except.ok (parseRows (data.map (toRawRow ci)))

/-- `ProcessingResult` (without the wall-clock `processing_time_seconds`). -/
structure ProcessingResult where
  success : Bool
  entities_created : Nat := 0
  relationships_created : Nat := 0
  products_matched : Nat := 0
  products_unmatched : Nat := 0
  errors : List Str := []
  deriving DecidableEq

/-- `MatrixProcessor._count_relationships`: the analytic estimate, summing
the six list-field lengths over all rows. -/
def countRelationships (rows : List MatrixRow) : Nat :=
  rows.foldl
    (fun c row => c + row.surfaces.length + row.incompatible_surfaces.length
      + row.soilage_types.length + row.incompatible_soilage.length
      + row.locations.length + row.benefits.length) 0

/-- The processor inputs `process()` reads: the matrix file, the
already-loaded scraped products (`_load_scraped_products` never raises and
yields `[]` when the path is absent, missing or malformed), the match
threshold and the dry-run flag. -/
structure ProcConfig where
  file : MatrixFile
  scraped : List Scraped
  threshold : ℚ
  dryRun : Bool

/-- `len(match_report.matched) if match_report else 0`: the report exists
only when scraped products were loaded (a truthy list). -/
def matchedCount (cfg : ProcConfig) (rows : List MatrixRow) : Nat :=
  if cfg.scraped.isEmpty then 0
  else (getMatchReport (buildMatcher cfg.scraped cfg.threshold) rows).matched.length

/-- `len(match_report.unmatched) if match_report else 0`. -/
def unmatchedCount (cfg : ProcConfig) (rows : List MatrixRow) : Nat :=
  if cfg.scraped.isEmpty then 0
  else (getMatchReport (buildMatcher cfg.scraped cfg.threshold) rows).unmatched.length

/-- `MatrixProcessor.process()`: parse, optionally match, extract, then
either estimate (dry run, no client contact) or build through the client;
the top-level `except` converts any pipeline error into a failed result
with that message as the sole error. Returns the result together with the
list of client calls issued. -/
def processRun (cl : Client) (cfg : ProcConfig) : ProcessingResult × List Call :=
  match parseFile cfg.file with
  | Except.error e => ({ success := false, errors := [e] }, [])
  | Except.ok rows =>
    if cfg.dryRun then
      ({ success := true
        , entities_created := (extractEntities rows).entity_count
        , relationships_created := countRelationships rows
        , products_matched := matchedCount cfg rows
        , products_unmatched := unmatchedCount cfg rows
        , errors := [] }, [])
    else
      ({ success := (buildFromRows cl rows).1.errors.isEmpty
        , entities_created := (buildFromRows cl rows).1.entities_created
        , relationships_created := (buildFromRows cl rows).1.relationships_created
        , products_matched := matchedCount cfg rows
        , products_unmatched := unmatchedCount cfg rows
        , errors := (buildFromRows cl rows).1.errors }
      , (buildFromRows cl rows).2.calls)

/-! ### C1: the processor never raises -/

/-- A parse failure is converted by the top-level `except` into a failed
result carrying the message as the sole error, with no client call. -/
theorem processRun_parse_err (cl : Client) (cfg : ProcConfig) (e : Str)
    (he : parseFile cfg.file = Except.error e) :
    processRun cl cfg = ({ success := false, errors := [e] }, []) := by
  unfold processRun
  rw [he]

/-- A load failure propagates through `parse`. -/
theorem parseFile_errLoad (f : MatrixFile) (e : Str)
    (he : loadFile f = Except.error e) : parseFile f = Except.error e := by
  unfold parseFile
  rw [he]

/-- An unreadable file of a supported kind fails with the load error. -/
theorem loadFile_unreadable (f : MatrixFile) (hr : f.readable = false)
    (hk : f.kind ≠ FileKind.other) :
    loadFile f = Except.error (str "Failed to load file") := by
  unfold loadFile loadExcel
  rw [hr]
  cases hkind : f.kind
  · cases f.cells <;> rfl
  · rfl
  · rfl
  · exact absurd hkind hk

/-- An unsupported suffix fails regardless of the file contents. -/
theorem loadFile_other (f : MatrixFile) (hk : f.kind = FileKind.other) :
    loadFile f = Except.error (str "Unsupported file type") := by
  unfold loadFile
  rw [hk]

/-- An Excel sheet with no header-looking row fails with the header error. -/
theorem loadFile_noHeader (f : MatrixFile) (hk : f.kind = FileKind.xlsx)
    (hr : f.readable = true) (hh : findHeader f.cells = none) :
    loadFile f
      = Except.error (str "Could not find header row with 'Product' column") := by
  unfold loadFile loadExcel
  rw [hk, hr, hh]
  rfl

/-- A loaded table whose header has no product column fails in
`_normalize_columns`. -/
theorem parseFile_noProduct (f : MatrixFile) (hdr : List (Option Str))
    (data : List (List (Option Str)))
    (hl : loadFile f = Except.ok (hdr, data))
    (hc : findCol hdr [str "product"] = none) :
    parseFile f = Except.error (str "Missing required 'Product' column") := by
  have h2 : normalizeColumns hdr
      = Except.error (str "Missing required 'Product' column") := by
    unfold normalizeColumns
    rw [hc]
  unfold parseFile
  rw [hl]
  show (match normalizeColumns hdr with
        | Except.error e => Except.error e
        | Except.ok ci => Except.ok (parseRows (data.map (toRawRow ci))))
      = Except.error (str "Missing required 'Product' column")
  rw [h2]

/-- C1: `process()` never raises to its caller: it is a total function of its
inputs, and every parse failure — any `MatrixParseError`, and in particular
an unreadable or missing file, an unsupported extension, an unlocatable
header row, and a missing product column — yields a returned
`ProcessingResult` with `success = false` and the error message as the sole
error, with no client call issued. -/
theorem process_never_raises (cl : Client) (cfg : ProcConfig) :
    (∀ e, parseFile cfg.file = Except.error e →
        processRun cl cfg = ({ success := false, errors := [e] }, []))
    ∧ (cfg.file.readable = false → cfg.file.kind ≠ FileKind.other →
        processRun cl cfg
          = ({ success := false, errors := [str "Failed to load file"] }, []))
    ∧ (cfg.file.kind = FileKind.other →
        processRun cl cfg
          = ({ success := false, errors := [str "Unsupported file type"] }, []))
    ∧ (cfg.file.kind = FileKind.xlsx → cfg.file.readable = true →
        findHeader cfg.file.cells = none →
        processRun cl cfg
          = ({ success := false
             , errors := [str "Could not find header row with 'Product' column"] }
            , []))
    ∧ (∀ hdr data, loadFile cfg.file = Except.ok (hdr, data) →
        findCol hdr [str "product"] = none →
        processRun cl cfg
          = ({ success := false
             , errors := [str "Missing required 'Product' column"] }, [])) := by
  refine ⟨?_, ?_, ?_, ?_, ?_⟩
  · exact fun e he => processRun_parse_err cl cfg e he
  · exact fun hr hk =>
      processRun_parse_err cl cfg _
        (parseFile_errLoad _ _ (loadFile_unreadable _ hr hk))
  · exact fun hk =>
      processRun_parse_err cl cfg _
        (parseFile_errLoad _ _ (loadFile_other _ hk))
  · exact fun hk hr hh =>
      processRun_parse_err cl cfg _
        (parseFile_errLoad _ _ (loadFile_noHeader _ hk hr hh))
  · exact fun hdr data hl hc =>
      processRun_parse_err cl cfg _ (parseFile_noProduct _ hdr data hl hc)

/-- A configuration pointing at a file with an unsupported suffix. -/
def unsupportedCfg : ProcConfig :=
  { file := { readable := true, kind := FileKind.other, cells := [] }
  , scraped := [], threshold := 0, dryRun := false }

theorem process_never_raises_witness :
    processRun okClient unsupportedCfg
      = ({ success := false, errors := [str "Unsupported file type"] }, []) :=
  (process_never_raises okClient unsupportedCfg).2.2.1 rfl

/-! ### C8: the dry-run frame -/

/-- The `_count_relationships` fold, as an accumulator-generalized sum. -/
theorem countRelationships_fold (rows : List MatrixRow) :
    ∀ c : Nat, rows.foldl
      (fun c row => c + row.surfaces.length + row.incompatible_surfaces.length
        + row.soilage_types.length + row.incompatible_soilage.length
        + row.locations.length + row.benefits.length) c
      = c + (rows.map (fun row => row.surfaces.length
          + row.incompatible_surfaces.length + row.soilage_types.length
          + row.incompatible_soilage.length + row.locations.length
          + row.benefits.length)).sum := by
  induction rows with
  | nil => intro c; simp
  | cons r rs ih =>
    intro c
    simp only [List.foldl_cons, List.map_cons, List.sum_cons]
    rw [ih]
    omega

/-- `_count_relationships` is the sum over all rows of the six list-field
lengths. -/
theorem countRelationships_eq (rows : List MatrixRow) :
    countRelationships rows
      = (rows.map (fun row => row.surfaces.length
          + row.incompatible_surfaces.length + row.soilage_types.length
          + row.incompatible_soilage.length + row.locations.length
          + row.benefits.length)).sum := by
  unfold countRelationships
  rw [countRelationships_fold rows 0]
  omega

/-- The dry-run branch of `process()` on a successful parse. -/
theorem processRun_dry (cl : Client) (cfg : ProcConfig) (rows : List MatrixRow)
    (hp : parseFile cfg.file = Except.ok rows) (hdry : cfg.dryRun = true) :
    processRun cl cfg
      = ({ success := true
         , entities_created := (extractEntities rows).entity_count
         , relationships_created := countRelationships rows
         , products_matched := matchedCount cfg rows
         , products_unmatched := unmatchedCount cfg rows
         , errors := [] }, []) := by
  unfold processRun
  rw [hp, hdry]
  rfl

/-- C8: with the dry-run flag set, `process()` issues zero calls on the
graph-store client, and on a successful parse the returned result has
`entities_created` equal to the extraction's unique-entity count and
`relationships_created` equal to the sum over all rows of the lengths of the
six list fields. -/
theorem dry_run_frame_effect (cl : Client) (cfg : ProcConfig)
    (hdry : cfg.dryRun = true) :
    (processRun cl cfg).2 = []
    ∧ ∀ rows, parseFile cfg.file = Except.ok rows →
        (processRun cl cfg).1.entities_created = (extractEntities rows).entity_count
        ∧ (processRun cl cfg).1.relationships_created
            = (rows.map (fun row => row.surfaces.length
                + row.incompatible_surfaces.length + row.soilage_types.length
                + row.incompatible_soilage.length + row.locations.length
                + row.benefits.length)).sum := by
  constructor
  · cases hp : parseFile cfg.file with
    | error e => rw [processRun_parse_err cl cfg e hp]
    | ok rows => rw [processRun_dry cl cfg rows hp hdry]
  · intro rows hp
    rw [processRun_dry cl cfg rows hp hdry]
    exact ⟨rfl, countRelationships_eq rows⟩

/-- A dry-run configuration over a small readable CSV. -/
def dryCfg : ProcConfig :=
  { file := { readable := true, kind := FileKind.csv
            , cells := [ [some (str "Product"), some (str "Surface")]
                       , [some (str "A"), some (str "wood")] ] }
  , scraped := [], threshold := 0, dryRun := true }

theorem dry_run_frame_effect_witness :
    (processRun okClient dryCfg).2 = []
    ∧ (processRun okClient dryCfg).1.entities_created
        = (extractEntities
            [{ product_name := str "A", surfaces := [str "wood"] }]).entity_count
    ∧ (processRun okClient dryCfg).1.relationships_created
        = ([({ product_name := str "A", surfaces := [str "wood"] } : MatrixRow)].map
            (fun row => row.surfaces.length
              + row.incompatible_surfaces.length + row.soilage_types.length
              + row.incompatible_soilage.length + row.locations.length
              + row.benefits.length)).sum :=
  ⟨(dry_run_frame_effect okClient dryCfg rfl).1
  , (dry_run_frame_effect okClient dryCfg rfl).2
      [{ product_name := str "A", surfaces := [str "wood"] }] (by rfl)⟩

end Agar
